import Mathlib

/-!
The min-alut library: the waveform synthesiser and the WAV / AU loader of `min_alut.h`

A shallow embedding of `alutLoadMemoryWaveformAU` and
`alutLoadMemoryFromFileImage`, followed by theorems about them.

Conventions of the embedding

* A buffer is a `List Nat`; a byte is read as its value modulo 256.
* A pointer into the caller's buffer is an offset from `param_data`.
* `size_t` is 64 bits wide: `size_t` arithmetic is arithmetic modulo `2 ^ 64`.
  `int`, `int32_t` and `ALsizei` are 32 bits wide, two's complement.
* What the C standard leaves to the implementation and the code depends on is
  a field of `Platform`: whether plain `char` is signed, and the byte order
  found by the probe on lines 95-96.
* Shifts of negative or overflowing `int` values are taken on the 32-bit
  two's complement pattern, which is what the usual compilers emit.
* Undefined behaviour that the code can reach (a read or write outside a
  buffer, a table index outside the table, a division by zero) is a `Fault`.
* `return NULL` is `none`.
-/

namespace MinAlut

/-! ## Machine integers -/

/-- Implementation-defined properties the code depends on. -/
structure Platform where
  /-- plain `char` is a signed type (x86 and x86-64 ABIs) -/
  charSigned : Bool
  /-- the result of the probe `u.l = 1; u.c[0] == 1` on lines 95-96 -/
  isLittleEndian : Bool
  deriving DecidableEq, Repr

/-- Undefined behaviour reached by the code, and the one artefact of the model. -/
inductive Fault where
  | readOutOfBounds
  | writeOutOfBounds
  | tableIndexOutOfBounds
  | divisionByZero
  /-- model only: the iteration bound handed to a loop was too small -/
  | outOfFuel
  deriving DecidableEq, Repr

/-- Conversion of an integer value to `size_t`. -/
def toSize (z : Int) : Nat := (z % 18446744073709551616).toNat

/-- The `int32_t` whose 32-bit pattern is `p % 2 ^ 32`. -/
def asInt32 (p : Nat) : Int :=
  if p % 4294967296 < 2147483648 then ((p % 4294967296 : Nat) : Int)
  else ((p % 4294967296 : Nat) : Int) - 4294967296

/-- Conversion of an integer value to `int32_t` (also `int`, `ALsizei`). -/
def toInt32 (z : Int) : Int := (z + 2147483648) % 4294967296 - 2147483648

/-- Conversion of an integer value to `int16_t`. -/
def toInt16 (z : Int) : Int := (z + 32768) % 65536 - 32768

/-- Conversion of an integer value to `int8_t`. -/
def toInt8 (z : Int) : Int := (z + 128) % 256 - 128

/-- Left shift on a 32-bit pattern. -/
def shl32 (p k : Nat) : Nat := (p <<< k) % 4294967296

/-- The 32-bit pattern of `(int32_t)c` and of `(uint32_t)c` for a plain `char`
holding the byte `b`: sign-extended where `char` is signed. -/
def char32 (pf : Platform) (b : Nat) : Nat :=
  if pf.charSigned ∧ 128 ≤ b % 256 then b % 256 + 4294967040 else b % 256

/-- The value of `(uint16_t)c` for a plain `char` holding the byte `b`. -/
def char16 (pf : Platform) (b : Nat) : Nat :=
  if pf.charSigned ∧ 128 ≤ b % 256 then b % 256 + 65280 else b % 256

/-! ## Reading the caller's buffer -/

/-- The byte at offset `i` of a buffer; reading past its end is undefined. -/
def readByte (data : List Nat) (i : Nat) : Except Fault Nat :=
  match data.get? i with
  | some b => .ok (b % 256)
  | none => .error .readOutOfBounds

/-- Lines 104, 112, 117, 158, 160-162:
`((int32_t)s[0] << 24) | ((int32_t)s[1] << 16) | ((int32_t)s[2] << 8) | ((int32_t)s[3])`
with `s = param_data + p`, a plain `char*`. -/
def readBE32 (pf : Platform) (data : List Nat) (p : Nat) : Except Fault Int := do
  let b0 ← readByte data p
  let b1 ← readByte data (p + 1)
  let b2 ← readByte data (p + 2)
  let b3 ← readByte data (p + 3)
  pure (asInt32 (shl32 (char32 pf b0) 24 ||| shl32 (char32 pf b1) 16
          ||| shl32 (char32 pf b2) 8 ||| char32 pf b3))

/-- Line 159:
`((uint8_t)s[4] << 24) | ((uint8_t)s[5] << 16) | ((uint8_t)s[6] << 8) | ((uint8_t)s[7])`
where `p` is the offset of `s[4]`: the bytes are taken unsigned. -/
def readBE32u8 (data : List Nat) (p : Nat) : Except Fault Int := do
  let b0 ← readByte data p
  let b1 ← readByte data (p + 1)
  let b2 ← readByte data (p + 2)
  let b3 ← readByte data (p + 3)
  pure (asInt32 (shl32 b0 24 ||| shl32 b1 16 ||| shl32 b2 8 ||| b3))

/-- Lines 111, 118 and the right-hand side of line 125:
`((uint32_t)s[3] << 24) | ((uint32_t)s[2] << 16) | ((uint32_t)s[1] << 8) | ((uint32_t)s[0])`
with `s = param_data + p`; the result is the `uint32_t` value. On line 125 the
cast `(int32_t)` on the first operand is undone by the `|` with a `uint32_t`. -/
def readLE32 (pf : Platform) (data : List Nat) (p : Nat) : Except Fault Nat := do
  let b0 ← readByte data p
  let b1 ← readByte data (p + 1)
  let b2 ← readByte data (p + 2)
  let b3 ← readByte data (p + 3)
  pure (shl32 (char32 pf b3) 24 ||| shl32 (char32 pf b2) 16
          ||| shl32 (char32 pf b1) 8 ||| char32 pf b0)

/-- Lines 123, 124, 127, 128: `((uint16_t)s[1] << 8) | ((uint16_t)s[0])` with
`s = param_data + p`; the operands are promoted to `int`, so the value is not
cut to 16 bits. -/
def readLE16 (pf : Platform) (data : List Nat) (p : Nat) : Except Fault Nat := do
  let b0 ← readByte data p
  let b1 ← readByte data (p + 1)
  pure ((char16 pf b1 <<< 8) ||| char16 pf b0)

/-! ## The synthesiser, lines 35-88 -/

def ALUT_WAVEFORM_SINE : Int := 0x100
def ALUT_WAVEFORM_SQUARE : Int := 0x101
def ALUT_WAVEFORM_SAWTOOTH : Int := 0x102
def ALUT_WAVEFORM_WHITENOISE : Int := 0x103
def ALUT_WAVEFORM_IMPULSE : Int := 0x104
def AU_HEADER_SIZE : Nat := 24
def AU_ULAW_8 : Nat := 1
def AU_PCM_8 : Nat := 2
def AU_PCM_16 : Nat := 3
def AU_ALAW_8 : Nat := 27
/-- Line 13, the `double` constant 44100, here as converted by `(uint64_t)`. -/
def sampleFrequency : Nat := 44100

/-- The floating-point results of the synthesiser, taken as parameters:
`numSamples` is the `size_t` computed on line 43 and `value i` the `int16_t`
computed on line 81 for sample `i` (it depends on `sin` and on `rand`). -/
structure WaveEnv where
  numSamples : Nat
  value : Nat → Int

/-- Lines 52-56: the 24 header bytes written for `numBytes` data bytes; each
initialiser is converted to `unsigned char`. -/
def auHeader (numBytes : Nat) : List Nat :=
  [0x2e, 0x73, 0x6e, 0x64,
   (AU_HEADER_SIZE >>> 24) % 256, (AU_HEADER_SIZE >>> 16) % 256,
   (AU_HEADER_SIZE >>> 8) % 256, AU_HEADER_SIZE % 256,
   (numBytes >>> 24) % 256, (numBytes >>> 16) % 256, (numBytes >>> 8) % 256, numBytes % 256,
   (AU_PCM_16 >>> 24) % 256, (AU_PCM_16 >>> 16) % 256, (AU_PCM_16 >>> 8) % 256, AU_PCM_16 % 256,
   (sampleFrequency >>> 24) % 256, (sampleFrequency >>> 16) % 256,
   (sampleFrequency >>> 8) % 256, sampleFrequency % 256,
   0, 0, 0, 1]

/-- Lines 68-84: the sample loop from index `i`, with `out` the bytes written
so far (so `sptr - stream_data = out.length`); `n` counts the iterations left. -/
def waveformLoop (env : WaveEnv) (maximumLength : Nat) : Nat → Nat → List Nat → Option (List Nat)
  | 0, _, out => some out
  | n + 1, i, out =>
    if toSize ((maximumLength : Int) - out.length) < 2 then none
    else
      let value := env.value i
      waveformLoop env maximumLength n (i + 1)
        (out ++ [((value / 256) % 256).toNat, (value % 256).toNat])

/-- Lines 35-88. The result is the returned stream (`*length` is its length);
`malloc` is taken to succeed. `frequency` and `duration` only enter through
the comparisons of line 40 and through `env`; `_phase` only through `env`. -/
def alutLoadMemoryWaveformAU (env : WaveEnv) (waveshape : Int) (frequency _phase duration : ℚ) :
    Option (List Nat) :=
  if waveshape ≠ ALUT_WAVEFORM_SINE ∨ waveshape ≠ ALUT_WAVEFORM_SQUARE
      ∨ waveshape ≠ ALUT_WAVEFORM_SAWTOOTH ∨ waveshape ≠ ALUT_WAVEFORM_WHITENOISE
      ∨ waveshape ≠ ALUT_WAVEFORM_IMPULSE then none
  else if frequency ≤ 0 ∨ duration < 0 then none
  else
    let numSamples := env.numSamples
    let numBytes := (numSamples * 2) % 18446744073709551616
    let maximumLength := (AU_HEADER_SIZE + numBytes) % 18446744073709551616
    waveformLoop env maximumLength numSamples 0 (auHeader numBytes)

/-! ## The container parser, lines 90-178 -/

/-- Lines 31-33. -/
inductive CodecType where
  | Linear | PCM8s | PCM16 | ULaw | ALaw | IMA4
  deriving DecidableEq, Repr

/-- The read cursor: `pos` is `stream_data - param_data`, `remainingLength` the
`size_t` of line 92. `decrements` is a ghost record of every
`remainingLength -= k`, latest first, as (value before, `k`). -/
structure Stream where
  pos : Nat
  remainingLength : Nat
  decrements : List (Nat × Nat)
  deriving DecidableEq, Repr

/-- The pair `stream_data = stream_data + k; remainingLength -= k;`
(lines 105, 113, 119, 129, 147, 151, 163, 167). The subtraction is `size_t`
subtraction: it wraps. -/
def Stream.advance (s : Stream) (k : Nat) : Stream :=
  { pos := s.pos + k
    remainingLength := toSize ((s.remainingLength : Int) - k)
    decrements := (s.remainingLength, k) :: s.decrements }

/-- The inputs of the codec stage, lines 99-100: `data` is the offset of the
payload in the caller's buffer, `length` a `size_t`. -/
structure Parsed where
  codec : CodecType
  data : Nat
  length : Nat
  numChannels : Int
  bitsPerSample : Int
  sampleFrequency : Int
  blockAlign : Int
  deriving DecidableEq, Repr

/-- The variables a `fmt ` chunk assigns (lines 123-134). -/
structure WavFmt where
  codec : CodecType
  numChannels : Int
  bitsPerSample : Int
  sampleFrequency : Int
  blockAlign : Int
  deriving DecidableEq, Repr

/-- The outcome of one pass through the body of `while (1)`, lines 116-152. -/
inductive ChunkStep where
  /-- the pass ends in `return NULL` -/
  | fail (s : Stream)
  /-- the pass ends in `break` at a `data` chunk -/
  | done (s : Stream) (p : Parsed)
  /-- the end of the body is reached; `fmt` is `some` when `found_header` is set -/
  | next (s : Stream) (fmt : Option WavFmt)
  deriving DecidableEq, Repr

/-- Lines 150-152: the padding byte after a chunk of odd length. -/
def wavPad (chunkLength : Nat) (s : Stream) : Stream :=
  if chunkLength % 2 = 1 ∧ ¬ (s.remainingLength = 0) then s.advance 1 else s

/-- Lines 116-152, one pass through the loop body. `fmt` holds the variables
set by the last `fmt ` chunk; `found_header` is `fmt.isSome`. -/
def wavChunkStep (pf : Platform) (data : List Nat) (s : Stream) (fmt : Option WavFmt) :
    Except Fault ChunkStep :=
  if s.remainingLength < 8 then pure (.fail s)
  else do
    let magic ← readBE32 pf data s.pos
    let chunkLength ← readLE32 pf data (s.pos + 4)
    let s := s.advance 8
    if magic = 0x666d7420 then
      if chunkLength < 16 ∨ s.remainingLength < chunkLength then pure (.fail s)
      else do
        let audioFormat ← (fun v => v % 65536) <$> readLE16 pf data s.pos
        let numChannels ← readLE16 pf data (s.pos + 2)
        let sampleFrequency ← asInt32 <$> readLE32 pf data (s.pos + 4)
        let blockAlign ← readLE16 pf data (s.pos + 12)
        let bitsPerSample ← readLE16 pf data (s.pos + 14)
        let s := s.advance chunkLength
        if audioFormat = 1 then
          pure (.next (wavPad chunkLength s)
            (some ⟨if bitsPerSample = 8 ∨ pf.isLittleEndian then .Linear else .PCM16,
                   numChannels, bitsPerSample, sampleFrequency, blockAlign⟩))
        else if audioFormat = 6 then
          pure (.next (wavPad chunkLength s)
            (some ⟨.ALaw, numChannels, toInt32 (bitsPerSample * 2), sampleFrequency, blockAlign⟩))
        else if audioFormat = 7 then
          pure (.next (wavPad chunkLength s)
            (some ⟨.ULaw, numChannels, toInt32 (bitsPerSample * 2), sampleFrequency, blockAlign⟩))
        else if audioFormat = 17 then
          pure (.next (wavPad chunkLength s)
            (some ⟨.IMA4, numChannels, toInt32 (bitsPerSample * 4), sampleFrequency, blockAlign⟩))
        else pure (.fail s)
    else if magic = 0x64617461 then
      match fmt with
      | none => pure (.fail s)
      | some f =>
        if s.remainingLength < chunkLength then pure (.fail s)
        else pure (.done s ⟨f.codec, s.pos, chunkLength, f.numChannels, f.bitsPerSample,
                            f.sampleFrequency, f.blockAlign⟩)
    else
      if s.remainingLength < chunkLength then pure (.fail s)
      else pure (.next (wavPad chunkLength (s.advance chunkLength)) fmt)

/-- Lines 115-153, `while (1)`: the body is run at most `fuel` times. -/
def wavChunkLoop (pf : Platform) (data : List Nat) :
    Nat → Stream → Option WavFmt → Except Fault (Stream × Option Parsed)
  | 0, _, _ => .error .outOfFuel
  | fuel + 1, s, fmt => do
    match ← wavChunkStep pf data s fmt with
    | .fail s => pure (s, none)
    | .done s p => pure (s, some p)
    | .next s fmt => wavChunkLoop pf data fuel s fmt

/-- Lines 108-114 and the loop: the branch taken for the magic number `RIFF`.
Every pass through the loop body that does not leave the loop lowers
`remainingLength` by 8 or more, so `remainingLength / 8 + 1` passes are enough. -/
def parseWAV (pf : Platform) (data : List Nat) (s : Stream) :
    Except Fault (Stream × Option Parsed) :=
  if s.remainingLength < 8 then pure (s, none)
  else do
    let _chunkLength ← readLE32 pf data s.pos
    let magic ← readBE32 pf data (s.pos + 4)
    let s := s.advance 8
    if magic ≠ 0x57415645 then pure (s, none)
    else wavChunkLoop pf data (s.remainingLength / 8 + 1) s none

/-- Lines 157-176: the branch taken for the magic number `.snd`. -/
def parseAU (pf : Platform) (data : List Nat) (s : Stream) :
    Except Fault (Stream × Option Parsed) :=
  if s.remainingLength < 20 then pure (s, none)
  else do
    let dataOffset ← readBE32 pf data s.pos
    let len ← readBE32u8 data (s.pos + 4)
    let encoding ← readBE32 pf data (s.pos + 8)
    let sampleFrequency ← readBE32 pf data (s.pos + 12)
    let numChannels ← readBE32 pf data (s.pos + 16)
    let s := s.advance 20
    let length : Nat :=
      if len = -1 then toSize ((s.remainingLength : Int) - AU_HEADER_SIZE - dataOffset)
      else toSize len
    if dataOffset < AU_HEADER_SIZE ∨ length ≤ 0 ∨ sampleFrequency < 1 ∨ numChannels < 1
        ∨ s.remainingLength < toSize ((dataOffset - AU_HEADER_SIZE) + length) then
      pure (s, none)
    else
      -- `dataOffset - AU_HEADER_SIZE` is not negative here
      let s := s.advance (dataOffset - AU_HEADER_SIZE).toNat
      if encoding = AU_ULAW_8 then
        pure (s, some ⟨.ULaw, s.pos, length, numChannels, 16, sampleFrequency, 1⟩)
      else if encoding = AU_PCM_8 then
        pure (s, some ⟨.PCM8s, s.pos, length, numChannels, 8, sampleFrequency, 1⟩)
      else if encoding = AU_PCM_16 then
        pure (s, some ⟨if ¬ pf.isLittleEndian then .Linear else .PCM16,
                       s.pos, length, numChannels, 16, sampleFrequency, 1⟩)
      else if encoding = AU_ALAW_8 then
        pure (s, some ⟨.ALaw, s.pos, length, numChannels, 16, sampleFrequency, 1⟩)
      else pure (s, none)

/-- Lines 91-178: what the parser leaves for the codec stage, with the final
cursor. `param_data` points to the bytes `data`. -/
def parseFileImage (pf : Platform) (data : List Nat) (param_length : Int) :
    Except Fault (Stream × Option Parsed) :=
  let s : Stream := ⟨0, toSize param_length, []⟩
  if s.remainingLength < 4 then pure (s, none)
  else do
    let magic ← readBE32 pf data s.pos
    let s := s.advance 4
    if magic = 0x52494646 then parseWAV pf data s
    else if magic = 0x2E736E64 then parseAU pf data s
    else pure (s, none)

/-! ## The format tag, lines 183-203 -/

/-- Modelled from the spec: the four format tags `AL_FORMAT_MONO8`,
`AL_FORMAT_MONO16`, `AL_FORMAT_STEREO8`, `AL_FORMAT_STEREO16`, which `alad.h`
defines and the spec lists as `{Mono8, Mono16, Stereo8, Stereo16}`. -/
inductive ALFormat where
  | Mono8 | Mono16 | Stereo8 | Stereo16
  deriving DecidableEq, Repr

/-- Lines 188-191 and 194-197: `switch (bitsPerSample) { case 8: fmt = t8;
case 16: fmt = t16; }`. Neither case ends in `break`, so control that enters
at `case 8` runs on through the assignment of `case 16`. `none` is the
variable `fmt` left without a value. -/
def bitsSwitch (t8 t16 : ALFormat) (bitsPerSample : Int) : Option ALFormat :=
  let fmt : Option ALFormat := none
  let fmt := if bitsPerSample = 8 then some t8 else fmt
  let fmt := if bitsPerSample = 8 ∨ bitsPerSample = 16 then some t16 else fmt
  fmt

/-- Lines 186-202: `none` is `return NULL` (`fmt_flag` false), `some fmt` the
value then stored through `format`. -/
def formatSwitch (numChannels bitsPerSample : Int) : Option (Option ALFormat) :=
  if numChannels = 1 then some (bitsSwitch .Mono8 .Mono16 bitsPerSample)
  else if numChannels = 2 then some (bitsSwitch .Stereo8 .Stereo16 bitsPerSample)
  else none

/-! ## The codec stage, lines 205-365 -/

/-- A buffer of `int16_t` obtained from `malloc`: `capacity` is the number of
bytes asked for, `stores` the assignments made through it, latest first, as
(sample index, value). A sample never stored has no determined value. -/
structure SampleBuffer where
  capacity : Nat
  stores : List (Nat × Int)
  deriving DecidableEq, Repr

/-- The assignment `buf[k] = v`; it is undefined unless both bytes of the
sample lie inside the allocation. -/
def SampleBuffer.store (b : SampleBuffer) (k : Nat) (v : Int) : Except Fault SampleBuffer :=
  if 2 * k + 2 ≤ b.capacity then pure { b with stores := (k, v) :: b.stores }
  else .error .writeOutOfBounds

/-- The value of `buf[k]` after the stores: that of the latest store to `k`. -/
def SampleBuffer.sample (b : SampleBuffer) (k : Nat) : Option Int :=
  (b.stores.find? (fun e => e.1 = k)).map (fun e => e.2)

/-- What the function returns. -/
inductive Returned where
  /-- the pointer `data`, which points into the caller's buffer (Linear, PCM8s, PCM16) -/
  | input (offset : Nat)
  /-- a fresh buffer whose samples `0 .. length - 1` were all assigned, in this
  order (ULaw, ALaw) -/
  | samples (buf : List Int)
  /-- a fresh buffer filled by the IMA4 decoder -/
  | sampleBuffer (buf : SampleBuffer)
  deriving DecidableEq, Repr

/-- The results of a call that does not return `NULL`: the values stored
through `format`, `size` and `frequency` (taken to be non-null; `frequency`
before its conversion to `ALfloat`), the pointer returned, and the contents of
the caller's buffer after the call. A `format` of `none` is the value of a
variable that was never assigned. -/
structure Loaded where
  format : Option ALFormat
  size : Int
  frequency : Int
  buffer : Returned
  input : List Nat
  deriving DecidableEq, Repr

/-- Lines 209-211: `((int8_t*)data)[i] += (int8_t)128` for `i` from the given
index, `n` iterations left; `p` is the offset of `data` in `buf`. -/
def pcm8sLoop (p : Nat) : Nat → Nat → List Nat → Except Fault (List Nat)
  | 0, _, buf => pure buf
  | n + 1, i, buf => do
    let b ← readByte buf (p + i)
    pcm8sLoop p n (i + 1) (buf.set (p + i) ((b + 128) % 256))

/-- Lines 216-218: the two bytes of every 16-bit sample change places. -/
def pcm16Loop (p : Nat) : Nat → Nat → List Nat → Except Fault (List Nat)
  | 0, _, buf => pure buf
  | n + 1, i, buf => do
    let b0 ← readByte buf (p + 2 * i)
    let b1 ← readByte buf (p + 2 * i + 1)
    pcm16Loop p n (i + 1) ((buf.set (p + 2 * i) b1).set (p + 2 * i + 1) b0)

/-- Line 227. -/
def exp_lut : List Int := [0, 132, 396, 924, 1980, 4092, 8316, 16764]

/-- Lines 237-239: the value assigned to `buf[i]` for the input byte `b`. -/
def mulawSample (b : Nat) : Int :=
  let mulawbyte : Nat := 255 - b % 256
  let exponent : Nat := (mulawbyte >>> 4) &&& 0x07
  toInt16 (toInt16 (1 + (if mulawbyte &&& 0x80 ≠ 0 then 1 else 0) * (-2))
            * (exp_lut.getD exponent 0 + (((mulawbyte &&& 0x0F) <<< (exponent + 3) : Nat) : Int)))

/-- Lines 254-263: the value assigned to `buf[i]` for the input byte `b`. -/
def alawSample (b : Nat) : Int :=
  let a_val : Nat := (b % 256) ^^^ 0x55
  let t : Int := toInt16 (((a_val &&& 0xf) <<< 4 : Nat) : Int)
  let seg : Nat := (a_val &&& 0x70) >>> 4
  let t : Int :=
    if seg = 0 then toInt16 (t + 8)
    else if seg = 1 then toInt16 (t + 0x108)
    else toInt16 (toInt16 (t + 0x108) * 2 ^ (seg - 1))
  toInt16 (if a_val &&& 0x80 ≠ 0 then t else -t)

/-- Lines 225-240 and 248-264: `buf[i] = f(((uint8_t*)data)[i])` for `i` from
the given index, `n` iterations left; `out` holds `buf[0 .. i-1]`. -/
def lawLoop (f : Nat → Int) (input : List Nat) (p : Nat) :
    Nat → Nat → List Int → Except Fault (List Int)
  | 0, _, out => pure out
  | n + 1, i, out => do
    let b ← readByte input (p + i)
    lawLoop f input p n (i + 1) (out ++ [f b])

/-- Line 294. -/
def index_table : List Int := [-1, -1, -1, -1, 2, 4, 6, 8, -1, -1, -1, -1, 2, 4, 6, 8]

/-- Lines 295-305. -/
def step_table : List Int :=
  [7, 8, 9, 10, 11, 12, 13, 14, 16, 17,
   19, 21, 23, 25, 28, 31, 34, 37, 41, 45,
   50, 55, 60, 66, 73, 80, 88, 97, 107, 118,
   130, 143, 157, 173, 190, 209, 230, 253, 279, 307,
   337, 371, 408, 449, 494, 544, 598, 658, 724, 796,
   876, 963, 1060, 1166, 1282, 1411, 1552, 1707, 1878, 2066,
   2272, 2499, 2749, 3024, 3327, 3660, 4026, 4428, 4871, 5358,
   5894, 6484, 7132, 7845, 8630, 9493, 10442, 11487, 12635, 13899,
   15289, 16818, 18500, 20350, 22385, 24623, 27086, 29794, 32767]

/-- The decoder state of one channel: `predictor[chn]` (`int16_t`) and
`index[chn]` (`uint8_t`). -/
structure ChannelState where
  predictor : Int
  index : Nat
  deriving DecidableEq, Repr

/-- Lines 307-334 for one nibble (`nibble` is a `uint8_t` below 16): the new
`predictor[chn]`, which is also the sample stored, and the new `index[chn]`. -/
def ima4Nibble (c : ChannelState) (nibble : Nat) : Except Fault ChannelState :=
  let index_val : Int := toInt8 c.index
  if index_val < 0 ∨ 88 < index_val then .error .tableIndexOutOfBounds
  else
    let step : Int := step_table.getD index_val.toNat 0
    let predictor_val : Int := c.predictor
    let index_val := toInt8 (index_val + index_table.getD nibble 0)
    let index_val := if index_val < 0 then 0 else index_val
    let index_val := if index_val > 88 then 88 else index_val
    let delta : Nat := nibble &&& 0x7
    let predictor_val := toInt16 (predictor_val
      + (-1 + (if nibble &&& 0x8 = 0 then 1 else 0) * 2)
        * ((if delta &&& 4 ≠ 0 then 1 else 0) * step
            + (if delta &&& 2 ≠ 0 then 1 else 0) * (step / 2)
            + (if delta &&& 1 ≠ 0 then 1 else 0) * (step / 4) + step / 8))
    pure ⟨predictor_val, (index_val % 256).toNat⟩

/-- The state of the IMA4 decoder between statements: `d` is
`d - (uint8_t*)data`, `ptr` is `ptr - buf` in samples. -/
structure Ima4State where
  d : Nat
  ptr : Nat
  buf : SampleBuffer
  deriving DecidableEq, Repr

/-- Lines 280-285: the preamble of the channels still to come (`n` of them);
`chans` holds `predictor[chn], index[chn]` of the channels read so far. -/
def ima4Preamble (input : List Nat) (p : Nat) :
    Nat → Nat → List ChannelState → Except Fault (Nat × List ChannelState)
  | 0, d, chans => pure (d, chans)
  | n + 1, d, chans => do
    let b0 ← readByte input (p + d)
    let b1 ← readByte input (p + d + 1)
    let b2 ← readByte input (p + d + 2)
    ima4Preamble input p n (d + 4) (chans ++ [⟨toInt16 ((b0 ||| (b1 <<< 8) : Nat) : Int), b2⟩])

/-- Lines 291-338: the nibbles `q .. 7` of one channel (`n` of them); `ptr_ch`
is `ptr_ch - buf` in samples. -/
def ima4Nibbles (input : List Nat) (p : Nat) (numChannels : Nat) :
    Nat → Nat → Nat → Nat → ChannelState → SampleBuffer →
      Except Fault (Nat × ChannelState × SampleBuffer)
  | 0, _, d, _, c, buf => pure (d, c, buf)
  | n + 1, q, d, ptr_ch, c, buf => do
    let byte ← readByte input (p + d)
    let nibble := if q % 2 = 0 then byte &&& 0xf else byte >>> 4
    let d := if q % 2 = 0 then d else d + 1
    let c ← ima4Nibble c nibble
    let buf ← buf.store ptr_ch c.predictor
    ima4Nibbles input p numChannels n (q + 1) d (ptr_ch + numChannels) c buf

/-- Lines 287-358: the channels `chn ..` of one group (`n` of them). -/
def ima4Channels (input : List Nat) (p : Nat) (numChannels : Nat) (ptr : Nat) :
    Nat → Nat → Nat → List ChannelState → SampleBuffer →
      Except Fault (Nat × List ChannelState × SampleBuffer)
  | 0, _, d, chans, buf => pure (d, chans, buf)
  | n + 1, chn, d, chans, buf => do
    match chans.get? chn with
    | none => .error .readOutOfBounds
    | some c =>
      let (d, c, buf) ← ima4Nibbles input p numChannels 8 0 d (ptr + chn) c buf
      ima4Channels input p numChannels ptr n (chn + 1) d (chans.set chn c) buf

/-- Lines 286-361: `for (size_t j = numChannels * 4; j < blockAlign;)`, the
body run at most `fuel` times. -/
def ima4Groups (input : List Nat) (p : Nat) (numChannels blockAlign : Nat) :
    Nat → Nat → List ChannelState → Ima4State → Except Fault Ima4State
  | 0, j, _, st => if j < blockAlign then .error .outOfFuel else pure st
  | fuel + 1, j, chans, st =>
    if j < blockAlign then do
      let (d, chans, buf) ← ima4Channels input p numChannels st.ptr numChannels 0 st.d chans st.buf
      ima4Groups input p numChannels blockAlign fuel (j + numChannels * 4) chans
        ⟨d, st.ptr + numChannels * 8, buf⟩
    else pure st

/-- Lines 278-361: the body of the loop over the blocks. -/
def ima4Block (input : List Nat) (p : Nat) (numChannels blockAlign : Nat) (st : Ima4State) :
    Except Fault Ima4State := do
  let (d, chans) ← ima4Preamble input p numChannels st.d []
  ima4Groups input p numChannels blockAlign blockAlign (numChannels * 4) chans { st with d := d }

/-- Lines 277-362: the blocks still to come (`n` of them). -/
def ima4Blocks (input : List Nat) (p : Nat) (numChannels blockAlign : Nat) :
    Nat → Ima4State → Except Fault Ima4State
  | 0, st => pure st
  | n + 1, st => do
    let st ← ima4Block input p numChannels blockAlign st
    ima4Blocks input p numChannels blockAlign n st

/-- Lines 267-364, `case IMA4`; `malloc` is taken to succeed. The result is
the buffer with `effective_length`, or `none` for `return NULL`. -/
def decodeIMA4 (input : List Nat) (p : Nat) (length : Nat) (numChannels blockAlign : Int) :
    Except Fault (Option (SampleBuffer × Nat)) :=
  if toSize blockAlign = 0 then .error .divisionByZero
  else
    let blocks : Nat := length / toSize blockAlign
    let effective_length : Nat := toSize ((blockAlign - numChannels) * blocks * 4)
    let buf : SampleBuffer := ⟨if effective_length = 0 then 1 else effective_length, []⟩
    if numChannels > 2 then pure none
    else do
      let st ← ima4Blocks input p (toSize numChannels) (toSize blockAlign) blocks ⟨0, 0, buf⟩
      pure (some (st.buf, effective_length))

/-- Lines 205-365, `switch (codec)`, with `fmt` the value stored through
`format` on line 203. -/
def decode (input : List Nat) (p : Parsed) (fmt : Option ALFormat) :
    Except Fault (Option Loaded) :=
  match p.codec with
  | .Linear =>
    pure (some ⟨fmt, toInt32 p.length, p.sampleFrequency, .input p.data, input⟩)
  | .PCM8s => do
    let input ← pcm8sLoop p.data p.length 0 input
    pure (some ⟨fmt, toInt32 p.length, p.sampleFrequency, .input p.data, input⟩)
  | .PCM16 => do
    let input ← pcm16Loop p.data (p.length / 2) 0 input
    pure (some ⟨fmt, toInt32 p.length, p.sampleFrequency, .input p.data, input⟩)
  | .ULaw => do
    let buf ← lawLoop mulawSample input p.data p.length 0 []
    pure (some ⟨fmt, toInt32 (toInt32 p.length * 2), p.sampleFrequency, .samples buf, input⟩)
  | .ALaw => do
    let buf ← lawLoop alawSample input p.data p.length 0 []
    pure (some ⟨fmt, toInt32 (toInt32 p.length * 2), p.sampleFrequency, .samples buf, input⟩)
  | .IMA4 => do
    match ← decodeIMA4 input p.data p.length p.numChannels p.blockAlign with
    | none => pure none
    | some (buf, effective_length) =>
      pure (some ⟨fmt, toInt32 effective_length, p.sampleFrequency, .sampleBuffer buf, input⟩)

/-- Lines 90-366. `param_data` points to the bytes `data`. -/
def alutLoadMemoryFromFileImage (pf : Platform) (data : List Nat) (param_length : Int) :
    Except Fault (Option Loaded) := do
  match (← parseFileImage pf data param_length).2 with
  | none => pure none
  | some p =>
    match formatSwitch p.numChannels p.bitsPerSample with
    | none => pure none
    | some fmt => decode data p fmt

/-! ## Properties and rules the theorems are stated with -/

/-- Every recorded decrement took no more than the counter held. -/
def Stream.NoUnderflow (s : Stream) : Prop := ∀ e ∈ s.decrements, e.2 ≤ e.1

/-- The cursor and the counter add up to the length `n` of the buffer, and no
decrement so far has wrapped. -/
def Stream.Inv (s : Stream) (n : Nat) : Prop :=
  s.pos + s.remainingLength = n ∧ s.NoUnderflow

/-- What one pass through the chunk loop body guarantees, for a buffer of `n`
bytes and a counter that held `r0` at the start of the pass. -/
def ChunkStep.Good (n r0 : Nat) : ChunkStep → Prop
  | .fail s => s.NoUnderflow
  | .done s p => s.NoUnderflow ∧ p.data + p.length ≤ n
  | .next s _ => s.Inv n ∧ s.remainingLength + 8 ≤ r0

/-- The table `T` of the u-law rule. -/
def ulawT : List Int := [0, 132, 396, 924, 1980, 4092, 8316, 16764]

/-- The u-law magnitude as the rule words it: `x` is the bitwise NOT of `b` on
8 bits, `e = (x >> 4) & 7`, `m = x & 15`, magnitude `T[e] + (m << (e + 3))`. -/
def ulawMagnitude (b : Nat) : Int :=
  let x := (b % 256) ^^^ 0xFF
  let e := (x >>> 4) &&& 7
  let m := x &&& 15
  ulawT.getD e 0 + ((m <<< (e + 3) : Nat) : Int)

/-- The u-law sample as the rule words it: the magnitude, negated when
`x & 0x80` is set. -/
def ulawSpec (b : Nat) : Int :=
  if ((b % 256) ^^^ 0xFF) &&& 0x80 ≠ 0 then - ulawMagnitude b else ulawMagnitude b

/-- The a-law magnitude as the rule words it: `x = b XOR 0x55`, `m = x & 15`,
`seg = (x >> 4) & 7`; `(m << 4) | 8` for segment 0, `(m << 4) | 0x108` for
segment 1, `((m << 4) | 0x108) << (seg - 1)` above. -/
def alawMagnitude (b : Nat) : Nat :=
  let x := (b % 256) ^^^ 0x55
  let m := x &&& 15
  let seg := (x >>> 4) &&& 7
  if seg = 0 then (m <<< 4) ||| 8
  else if seg = 1 then (m <<< 4) ||| 0x108
  else ((m <<< 4) ||| 0x108) <<< (seg - 1)

/-- The a-law sample as the rule words it: `+t` when bit 7 of `x` is set, `-t`
otherwise. -/
def alawSpec (b : Nat) : Int :=
  if ((b % 256) ^^^ 0x55) &&& 0x80 ≠ 0 then (alawMagnitude b : Int)
  else - (alawMagnitude b : Int)

/-! ## Input images used below -/

/-- An AU header of 24 bytes with the given data offset, data size and
encoding fields, sample rate 8000 (`00 00 1F 40`) and one channel. -/
def auHeader8000 (dataOffset dataSize encoding : List Nat) : List Nat :=
  [0x2e, 0x73, 0x6e, 0x64] ++ dataOffset ++ dataSize ++ encoding
    ++ [0, 0, 0x1f, 0x40, 0, 0, 0, 1]

/-- An AU file of 27 bytes: data offset 24, data size 3, encoding 2 (PCM-8),
one channel, the payload `01 02 03`. -/
def auPcm8Mono : List Nat :=
  auHeader8000 [0, 0, 0, 24] [0, 0, 0, 3] [0, 0, 0, 2] ++ [1, 2, 3]

/-- An AU file of 72 bytes, PCM-8: data offset 25, data size `FF FF FF FF`. -/
def auRestOffset25 : List Nat :=
  auHeader8000 [0, 0, 0, 25] [0xff, 0xff, 0xff, 0xff] [0, 0, 0, 2] ++ List.replicate 48 0

/-- An AU file of 72 bytes, PCM-8: data offset 26, data size `FF FF FF FE`. -/
def auSizeMinus2Offset26 : List Nat :=
  auHeader8000 [0, 0, 0, 26] [0xff, 0xff, 0xff, 0xfe] [0, 0, 0, 2] ++ List.replicate 48 0

/-- An AU file of 72 bytes, PCM-8: data offset 74, data size `FF FF FF FE`. -/
def auSizeMinus2Offset74 : List Nat :=
  auHeader8000 [0, 0, 0, 74] [0xff, 0xff, 0xff, 0xfe] [0, 0, 0, 2] ++ List.replicate 48 0

/-- An AU file of 124 bytes, PCM-8: data offset 24, data size `FF FF FF FF`. -/
def auRest124 : List Nat :=
  auHeader8000 [0, 0, 0, 24] [0xff, 0xff, 0xff, 0xff] [0, 0, 0, 2] ++ List.replicate 100 0

/-- A canonical PCM WAV image: `RIFF`, four size bytes, `WAVE`, a `fmt ` chunk
of length 16 with audio format 1, one channel, the four sample-rate bytes
`rate`, byte rate 0, block align 1, 8 bits; then a `data` chunk with the four
length bytes `n` and the payload. -/
def wavPcm8Mono (rate n payload : List Nat) : List Nat :=
  [0x52, 0x49, 0x46, 0x46, 0, 0, 0, 0, 0x57, 0x41, 0x56, 0x45,
   0x66, 0x6d, 0x74, 0x20, 16, 0, 0, 0, 1, 0, 1, 0] ++ rate ++ [0, 0, 0, 0, 1, 0, 8, 0]
    ++ [0x64, 0x61, 0x74, 0x61] ++ n ++ payload

/-- The 54 bytes that follow the magic number `RIFF` in a mono WAV image with
one `fmt ` chunk (PCM, 8 bits, rate 8000), an unknown chunk `LIST` of odd
length 3 with its padding byte, and a `data` chunk of 2 bytes. -/
def wavListTail : List Nat :=
  [0, 0, 0, 0, 0x57, 0x41, 0x56, 0x45,
   0x66, 0x6d, 0x74, 0x20, 16, 0, 0, 0, 1, 0, 1, 0, 0x40, 0x1f, 0, 0, 0, 0, 0, 0, 1, 0, 8, 0,
   0x4c, 0x49, 0x53, 0x54, 3, 0, 0, 0, 7, 7, 7, 0,
   0x64, 0x61, 0x74, 0x61, 2, 0, 0, 0, 5, 6]

/-- An AU file of 27 bytes: encoding 1 (u-law), payload `FF 7F 00`. -/
def auUlawMono : List Nat :=
  auHeader8000 [0, 0, 0, 24] [0, 0, 0, 3] [0, 0, 0, 1] ++ [0xff, 0x7f, 0x00]

/-- An AU file of 27 bytes: encoding 27 (a-law), payload `D5 55 2A`. -/
def auAlawMono : List Nat :=
  auHeader8000 [0, 0, 0, 24] [0, 0, 0, 3] [0, 0, 0, 27] ++ [0xd5, 0x55, 0x2a]

/-- One mono IMA4 block of 8 bytes: the preamble `00 00 00 00` (predictor 0,
step index 0) and four data bytes, the first with low nibble 0. -/
def ima4MonoBlock : List Nat := [0, 0, 0, 0, 0x10, 0x32, 0x54, 0x76]

/-- A WAV image: `RIFF`, four size bytes, `WAVE`, a `fmt ` chunk of length 16
with the given audio format, channel count, block align and bits per sample
(each below 128, high byte 0), sample rate 8000 and byte rate 0; then a `data`
chunk holding `payload` (shorter than 128 bytes), then `trailer`. -/
def wavImage (audioFormat numChannels blockAlign bitsPerSample : Nat)
    (payload trailer : List Nat) : List Nat :=
  [0x52, 0x49, 0x46, 0x46, 0, 0, 0, 0, 0x57, 0x41, 0x56, 0x45,
   0x66, 0x6d, 0x74, 0x20, 16, 0, 0, 0, audioFormat, 0, numChannels, 0,
   0x40, 0x1f, 0, 0, 0, 0, 0, 0, blockAlign, 0, bitsPerSample, 0,
   0x64, 0x61, 0x74, 0x61, payload.length, 0, 0, 0] ++ payload ++ trailer

/-- An AU file of 24 bytes, PCM-8, whose data size field is 0. -/
def auSizeZero : List Nat :=
  auHeader8000 [0, 0, 0, 24] [0, 0, 0, 0] [0, 0, 0, 2]

/-- An AU file of 72 bytes, PCM-16: data offset 25, data size `FF FF FF FF`. -/
def auPcm16RestOffset25 : List Nat :=
  auHeader8000 [0, 0, 0, 25] [0xff, 0xff, 0xff, 0xff] [0, 0, 0, 3] ++ List.replicate 48 0

/-- An AU file of 28 bytes: encoding 3 (PCM-16), payload `01 02 03 04`. -/
def auPcm16Mono : List Nat :=
  auHeader8000 [0, 0, 0, 24] [0, 0, 0, 4] [0, 0, 0, 3] ++ [1, 2, 3, 4]


/-- The reference step of an IMA4 nibble, as the rule words it, for predictor
`p`, step index `s` and nibble `n`: `step = step_table[s]`; `delta = (step >>
3) + (step if n & 4) + (step >> 1 if n & 2) + (step >> 2 if n & 1)`; the new
predictor is `p - delta` if `n & 8` else `p + delta`, reduced to signed 16
bits; the new index is `s + index_table[n]` clamped to `[0, 88]`. -/
def ima4NibbleSpec (p : Int) (s n : Nat) : Int × Int :=
  let step := step_table.getD s 0
  let delta := step / 8 + (if n &&& 4 ≠ 0 then step else 0)
    + (if n &&& 2 ≠ 0 then step / 2 else 0) + (if n &&& 1 ≠ 0 then step / 4 else 0)
  (toInt16 (if n &&& 8 ≠ 0 then p - delta else p + delta),
   max 0 (min 88 ((s : Int) + index_table.getD n 0)))

/-- An input of 17 bytes: `RIFF`, four size bytes, `WAVE` and 5 more bytes. -/
def riffCutInChunkHeader : List Nat :=
  [0x52, 0x49, 0x46, 0x46, 0, 0, 0, 0, 0x57, 0x41, 0x56, 0x45, 0x66, 0x6d, 0x74, 0x20, 16]

/-- An input of 14 bytes: `.snd` and 10 more bytes. -/
def sndCutInHeader : List Nat :=
  [0x2e, 0x73, 0x6e, 0x64, 0, 0, 0, 24, 0, 0, 0, 3, 0, 0]

/-- An input of 12 bytes that starts with `FORM`. -/
def formImage : List Nat :=
  [0x46, 0x4f, 0x52, 0x4d, 0x80, 0xff, 0xac, 0x90, 0x41, 0x49, 0x46, 0x46]

/-- The first 41 bytes of a mono PCM WAV image: the input ends 5 bytes after
the `fmt ` chunk, inside the header of the `data` chunk. -/
def wavCutAfterFmt : List Nat := (wavImage 1 1 1 8 [] []).take 41

/-! ## Theorems -/

/-! ### Arithmetic on `size_t` and reads inside the buffer -/

theorem toSize_sub_of_le (r k : Nat) (hk : k ≤ r) (hr : r < 18446744073709551616) :
    toSize ((r : Int) - (k : Int)) = r - k := by
  unfold toSize
  omega

theorem toSize_natCast (r : Nat) (hr : r < 18446744073709551616) : toSize (r : Int) = r := by
  unfold toSize
  omega

theorem readByte_eq (data : List Nat) (i : Nat) (h : i < data.length) :
    readByte data i = .ok (data[i] % 256) := by
  unfold readByte
  rw [List.get?_eq_get h]
  rfl

theorem readByte_ok (data : List Nat) (i : Nat) (h : i < data.length) :
    ∃ b, readByte data i = .ok b :=
  ⟨_, readByte_eq data i h⟩

theorem readBE32_ok (pf : Platform) (data : List Nat) (p : Nat) (h : p + 4 ≤ data.length) :
    ∃ v, readBE32 pf data p = .ok v := by
  obtain ⟨b0, h0⟩ := readByte_ok data p (by omega)
  obtain ⟨b1, h1⟩ := readByte_ok data (p + 1) (by omega)
  obtain ⟨b2, h2⟩ := readByte_ok data (p + 2) (by omega)
  obtain ⟨b3, h3⟩ := readByte_ok data (p + 3) (by omega)
  simp [readBE32, h0, h1, h2, h3, bind, Except.bind, pure, Except.pure]

theorem readLE32_ok (pf : Platform) (data : List Nat) (p : Nat) (h : p + 4 ≤ data.length) :
    ∃ v, readLE32 pf data p = .ok v := by
  obtain ⟨b0, h0⟩ := readByte_ok data p (by omega)
  obtain ⟨b1, h1⟩ := readByte_ok data (p + 1) (by omega)
  obtain ⟨b2, h2⟩ := readByte_ok data (p + 2) (by omega)
  obtain ⟨b3, h3⟩ := readByte_ok data (p + 3) (by omega)
  simp [readLE32, h0, h1, h2, h3, bind, Except.bind, pure, Except.pure]

theorem readLE16_ok (pf : Platform) (data : List Nat) (p : Nat) (h : p + 2 ≤ data.length) :
    ∃ v, readLE16 pf data p = .ok v := by
  obtain ⟨b0, h0⟩ := readByte_ok data p (by omega)
  obtain ⟨b1, h1⟩ := readByte_ok data (p + 1) (by omega)
  simp [readLE16, h0, h1, bind, Except.bind, pure, Except.pure]

/-! ### The format tag -/

/-- C1, the code at the failing input: on every platform an AU file with
encoding 2 (PCM-8) and one channel is accepted and the tag stored through
`format` is Mono16, not Mono8. -/
theorem au_pcm8_mono_tagged_mono16 (pf : Platform) :
    (alutLoadMemoryFromFileImage pf auPcm8Mono 27).map (fun r => r.map Loaded.format)
      = .ok (some (some .Mono16)) := by
  rcases pf with ⟨_ | _, _ | _⟩ <;> rfl

/-! ### The AU branch -/

/-- C2, the code at three failing inputs of 72 bytes, on every platform. With
data offset 25 and data size -1 the parser accepts a payload of `2 ^ 64 - 1`
bytes at offset 25, and the PCM-8 loop then leaves the buffer. With data
offset 26 and data size `FF FF FF FE` it accepts a payload of `2 ^ 64 - 2`
bytes. With data offset 74 and data size `FF FF FF FE` it accepts and takes 50
from a remaining length of 48. -/
theorem au_payload_leaves_input (pf : Platform) :
    (parseFileImage pf auRestOffset25 72).map (fun r => r.2.map (fun p => (p.data, p.length)))
      = .ok (some (25, 18446744073709551615))
    ∧ alutLoadMemoryFromFileImage pf auRestOffset25 72 = .error .readOutOfBounds
    ∧ (parseFileImage pf auSizeMinus2Offset26 72).map
        (fun r => r.2.map (fun p => (p.data, p.length)))
      = .ok (some (26, 18446744073709551614))
    ∧ (parseFileImage pf auSizeMinus2Offset74 72).map
        (fun r => (r.1.decrements.head?, r.2.map (fun p => (p.data, p.length))))
      = .ok (some (48, 50), some (74, 18446744073709551614)) := by
  rcases pf with ⟨_ | _, _ | _⟩ <;> exact ⟨rfl, rfl, rfl, rfl⟩

/-- C4, the code at the failing input: on every platform the 124-byte AU file
with data offset 24 and data size -1 is accepted with a payload of 52 bytes,
not 100, and 52 is the byte length the call reports. -/
theorem au_rest_of_buffer_is_short (pf : Platform) :
    (parseFileImage pf auRest124 124).map (fun r => r.2.map (fun p => (p.data, p.length)))
      = .ok (some (24, 52))
    ∧ (alutLoadMemoryFromFileImage pf auRest124 124).map (fun r => r.map Loaded.size)
      = .ok (some 52) := by
  rcases pf with ⟨_ | _, _ | _⟩ <;> exact ⟨rfl, rfl⟩

/-! ### The synthesiser -/

/-- C5, the code at every input: the test on line 36 holds for every value of
`waveshape`, so the function returns `NULL` whatever it is given, also for
each of the five shapes with frequency 440, phase 0 and duration 0.01. -/
theorem waveform_always_returns_null (env : WaveEnv) (waveshape : Int)
    (frequency phase duration : ℚ) :
    alutLoadMemoryWaveformAU env waveshape frequency phase duration = none := by
  unfold alutLoadMemoryWaveformAU
  rw [if_pos]
  simp only [ALUT_WAVEFORM_SINE, ALUT_WAVEFORM_SQUARE]
  omega

/-! ### Header bytes of `0x80` and above -/

/-- C6, the code at the failing input, for either byte order. Where plain
`char` is signed, the canonical PCM WAV image with sample-rate bytes
`44 AC 00 00` and data-length bytes `80 00 00 00` followed by 128 payload
bytes is rejected (line 118 reads the length as `0xFFFFFF80`), and the same
image with a 4-byte payload is accepted with sample rate -21436 (line 125).
Where plain `char` is unsigned the first image is accepted with sample rate
44100 and byte length 128. -/
theorem wav_high_header_bytes_sign_extended (le : Bool) :
    alutLoadMemoryFromFileImage ⟨true, le⟩
        (wavPcm8Mono [0x44, 0xAC, 0, 0] [0x80, 0, 0, 0] (List.replicate 128 0)) 172 = .ok none
    ∧ (alutLoadMemoryFromFileImage ⟨true, le⟩
        (wavPcm8Mono [0x44, 0xAC, 0, 0] [4, 0, 0, 0] [1, 2, 3, 4]) 48).map
          (fun r => r.map (fun l => (l.frequency, l.size))) = .ok (some (-21436, 4))
    ∧ (alutLoadMemoryFromFileImage ⟨false, le⟩
        (wavPcm8Mono [0x44, 0xAC, 0, 0] [0x80, 0, 0, 0] (List.replicate 128 0)) 172).map
          (fun r => r.map (fun l => (l.frequency, l.size))) = .ok (some (44100, 128)) := by
  cases le <;> exact ⟨rfl, rfl, rfl⟩

/-- C7, the code at the failing input, for either byte order. The header the
synthesiser writes for 2 data bytes carries the sample rate as `00 00 AC 44`;
followed by 2 payload bytes it is rejected where plain `char` is signed
(line 161 reads the rate as -21436, line 166 returns `NULL`), and accepted as
Mono16 with sample rate 44100 and byte length 2 where plain `char` is
unsigned. -/
theorem synthesised_header_rejected (le : Bool) :
    auHeader 2 = [0x2e, 0x73, 0x6e, 0x64, 0, 0, 0, 24, 0, 0, 0, 2, 0, 0, 0, 3,
                  0, 0, 0xAC, 0x44, 0, 0, 0, 1]
    ∧ alutLoadMemoryFromFileImage ⟨true, le⟩ (auHeader 2 ++ [0, 0]) 26 = .ok none
    ∧ (alutLoadMemoryFromFileImage ⟨false, le⟩ (auHeader 2 ++ [0, 0]) 26).map
          (fun r => r.map (fun l => (l.format, l.frequency, l.size)))
        = .ok (some (some .Mono16, 44100, 2)) := by
  cases le <;> exact ⟨rfl, rfl, rfl⟩

/-! ### The WAV branch: the cursor stays inside the buffer -/

theorem Stream.advance_inv (s : Stream) (n k : Nat) (hn : n < 18446744073709551616)
    (h : s.Inv n) (hk : k ≤ s.remainingLength) :
    (s.advance k).Inv n ∧ (s.advance k).remainingLength = s.remainingLength - k
      ∧ (s.advance k).pos = s.pos + k := by
  obtain ⟨h1, h2⟩ := h
  have hr : (s.advance k).remainingLength = s.remainingLength - k := by
    simp only [Stream.advance]
    exact toSize_sub_of_le _ _ hk (by omega)
  refine ⟨⟨?_, ?_⟩, hr, rfl⟩
  · rw [hr]; simp only [Stream.advance]; omega
  · intro e he
    simp only [Stream.advance, List.mem_cons] at he
    rcases he with rfl | he
    · exact hk
    · exact h2 e he

theorem wavPad_inv (s : Stream) (n c : Nat) (hn : n < 18446744073709551616) (h : s.Inv n) :
    (wavPad c s).Inv n ∧ (wavPad c s).remainingLength ≤ s.remainingLength := by
  unfold wavPad
  split
  · rename_i hc
    have := Stream.advance_inv s n 1 hn h (by omega)
    exact ⟨this.1, by omega⟩
  · exact ⟨h, le_refl _⟩

/-- One pass through the chunk loop body, started with the cursor inside the
buffer, reads inside the buffer, never wraps the counter, and either leaves
the loop or lowers the counter by 8 or more. -/
theorem wavChunkStep_good (pf : Platform) (data : List Nat) (s : Stream) (fmt : Option WavFmt)
    (hn : data.length < 18446744073709551616) (h : s.Inv data.length) :
    ∃ r, wavChunkStep pf data s fmt = .ok r ∧ r.Good data.length s.remainingLength := by
  unfold wavChunkStep
  have hpos := h.1
  by_cases h8 : s.remainingLength < 8
  · rw [if_pos h8]
    exact ⟨_, rfl, h.2⟩
  rw [if_neg h8]
  obtain ⟨magic, hm⟩ := readBE32_ok pf data s.pos (by omega)
  obtain ⟨cl, hcl⟩ := readLE32_ok pf data (s.pos + 4) (by omega)
  obtain ⟨ha, har, hap⟩ := Stream.advance_inv s data.length 8 hn h (by omega)
  have hapos := ha.1
  simp only [hm, hcl, bind, Except.bind]
  by_cases hfmt : magic = 0x666d7420
  · rw [if_pos hfmt]
    by_cases hc : cl < 16 ∨ (s.advance 8).remainingLength < cl
    · rw [if_pos hc]
      exact ⟨_, rfl, ha.2⟩
    rw [if_neg hc]
    obtain ⟨v1, h1⟩ := readLE16_ok pf data (s.advance 8).pos (by omega)
    obtain ⟨v2, h2⟩ := readLE16_ok pf data ((s.advance 8).pos + 2) (by omega)
    obtain ⟨v3, h3⟩ := readLE32_ok pf data ((s.advance 8).pos + 4) (by omega)
    obtain ⟨v4, h4⟩ := readLE16_ok pf data ((s.advance 8).pos + 12) (by omega)
    obtain ⟨v5, h5⟩ := readLE16_ok pf data ((s.advance 8).pos + 14) (by omega)
    obtain ⟨hb, hbr, -⟩ := Stream.advance_inv (s.advance 8) data.length cl hn ha (by omega)
    obtain ⟨hp, hpr⟩ := wavPad_inv ((s.advance 8).advance cl) data.length cl hn hb
    simp only [h1, h2, h3, h4, h5, Functor.map, Except.map]
    split_ifs
    all_goals first
      | exact ⟨_, rfl, hp, by omega⟩
      | exact ⟨_, rfl, hb.2⟩
  rw [if_neg hfmt]
  by_cases hdata : magic = 0x64617461
  · rw [if_pos hdata]
    cases fmt with
    | none => exact ⟨_, rfl, ha.2⟩
    | some f =>
      simp only []
      split_ifs with hc
      · exact ⟨_, rfl, ha.2⟩
      · exact ⟨_, rfl, ha.2, by simp only []; omega⟩
  rw [if_neg hdata]
  split_ifs with hc
  · exact ⟨_, rfl, ha.2⟩
  · obtain ⟨hb, hbr, -⟩ := Stream.advance_inv (s.advance 8) data.length cl hn ha (by omega)
    obtain ⟨hp, hpr⟩ := wavPad_inv ((s.advance 8).advance cl) data.length cl hn hb
    exact ⟨_, rfl, hp, by omega⟩

/-- With more fuel than an eighth of the counter the chunk loop returns, and
what it returns is inside the buffer. -/
theorem wavChunkLoop_good (pf : Platform) (data : List Nat)
    (hn : data.length < 18446744073709551616) :
    ∀ (fuel : Nat) (s : Stream) (fmt : Option WavFmt), s.Inv data.length →
      s.remainingLength / 8 < fuel →
      ∃ s' r, wavChunkLoop pf data fuel s fmt = .ok (s', r) ∧ s'.NoUnderflow
        ∧ ∀ p, r = some p → p.data + p.length ≤ data.length := by
  intro fuel
  induction fuel with
  | zero => intro s fmt _ hf; omega
  | succ fuel ih =>
    intro s fmt h hf
    obtain ⟨r, hr, hg⟩ := wavChunkStep_good pf data s fmt hn h
    unfold wavChunkLoop
    simp only [hr, bind, Except.bind]
    cases r with
    | fail s1 => exact ⟨s1, none, rfl, hg, by intro p hp; cases hp⟩
    | done s1 p1 =>
      refine ⟨s1, some p1, rfl, hg.1, ?_⟩
      intro p hp
      cases hp
      exact hg.2
    | next s1 fmt1 =>
      obtain ⟨hi, hlt⟩ := hg
      exact ih s1 fmt1 hi (by omega)

theorem parseWAV_good (pf : Platform) (data : List Nat) (s : Stream)
    (hn : data.length < 18446744073709551616) (h : s.Inv data.length) :
    ∃ s' r, parseWAV pf data s = .ok (s', r) ∧ s'.NoUnderflow
      ∧ ∀ p, r = some p → p.data + p.length ≤ data.length := by
  unfold parseWAV
  have hpos := h.1
  by_cases h8 : s.remainingLength < 8
  · rw [if_pos h8]
    exact ⟨s, none, rfl, h.2, by intro p hp; cases hp⟩
  rw [if_neg h8]
  obtain ⟨cl, hcl⟩ := readLE32_ok pf data s.pos (by omega)
  obtain ⟨magic, hm⟩ := readBE32_ok pf data (s.pos + 4) (by omega)
  obtain ⟨ha, -, -⟩ := Stream.advance_inv s data.length 8 hn h (by omega)
  simp only [hm, hcl, bind, Except.bind]
  split_ifs with hw
  · exact ⟨_, none, rfl, ha.2, by intro p hp; cases hp⟩
  · exact wavChunkLoop_good pf data hn _ _ none ha (by omega)

theorem readBE32_riff (pf : Platform) (rest : List Nat) :
    readBE32 pf (0x52 :: 0x49 :: 0x46 :: 0x46 :: rest) 0 = .ok 0x52494646 := by
  rcases pf with ⟨_ | _, _ | _⟩ <;> rfl

/-- C3: on every platform, for every input that begins with `RIFF` and whose
length is an `ALsizei`, the parser returns (it reads no byte outside the
input and the chunk loop ends), every `remainingLength -= k` it performed
took `k` no larger than the counter held, and if it accepts, the payload lies
inside the input: payload offset + payload length <= input length. -/
theorem riff_payload_in_bounds (pf : Platform) (rest : List Nat)
    (hlen : (0x52 :: 0x49 :: 0x46 :: 0x46 :: rest).length < 2147483648) :
    ∃ s r, parseFileImage pf (0x52 :: 0x49 :: 0x46 :: 0x46 :: rest)
          ((0x52 :: 0x49 :: 0x46 :: 0x46 :: rest).length : Nat) = .ok (s, r)
      ∧ (∀ e ∈ s.decrements, e.2 ≤ e.1)
      ∧ ∀ p, r = some p → p.data + p.length ≤ (0x52 :: 0x49 :: 0x46 :: 0x46 :: rest).length := by
  have hn : (0x52 :: 0x49 :: 0x46 :: 0x46 :: rest).length < 18446744073709551616 := by omega
  have h4 : 4 ≤ (0x52 :: 0x49 :: 0x46 :: 0x46 :: rest).length := by simp
  generalize hd : (0x52 :: 0x49 :: 0x46 :: 0x46 :: rest) = data at hlen hn h4 ⊢
  have hriff : readBE32 pf data 0 = .ok 0x52494646 := by rw [← hd]; exact readBE32_riff pf rest
  have h0 : (⟨0, data.length, []⟩ : Stream).Inv data.length :=
    ⟨by simp, by intro e he; cases he⟩
  obtain ⟨ha, -, -⟩ := Stream.advance_inv _ data.length 4 hn h0 h4
  unfold parseFileImage
  simp only [toSize_natCast _ hn]
  rw [if_neg (by omega)]
  simp only [hriff, bind, Except.bind, if_true]
  exact parseWAV_good pf data _ hn ha

/-- C3 at a WAV image of 58 bytes with a `LIST` chunk of odd length between
`fmt ` and `data`; the image is accepted with the payload at offset 56. -/
theorem riff_payload_in_bounds_witness :
    (0x52 :: 0x49 :: 0x46 :: 0x46 :: wavListTail).length < 2147483648
    ∧ (parseFileImage ⟨true, true⟩ (0x52 :: 0x49 :: 0x46 :: 0x46 :: wavListTail) 58).map
        (fun r => r.2.map (fun p => (p.data, p.length))) = .ok (some (56, 2))
    ∧ ∃ s r, parseFileImage ⟨true, true⟩ (0x52 :: 0x49 :: 0x46 :: 0x46 :: wavListTail)
          ((0x52 :: 0x49 :: 0x46 :: 0x46 :: wavListTail).length : Nat) = .ok (s, r)
      ∧ (∀ e ∈ s.decrements, e.2 ≤ e.1)
      ∧ ∀ p, r = some p →
          p.data + p.length ≤ (0x52 :: 0x49 :: 0x46 :: 0x46 :: wavListTail).length :=
  ⟨by decide, rfl, riff_payload_in_bounds ⟨true, true⟩ wavListTail (by decide)⟩

/-! ### u-law and a-law -/

set_option maxRecDepth 100000 in
theorem mulaw_table_check :
    ∀ k < 256, mulawSample k = ulawSpec k ∧ ulawMagnitude k ≤ 32124 := by
  decide

set_option maxRecDepth 100000 in
theorem alaw_table_check :
    ∀ k < 256, alawSample k = alawSpec k ∧ alawMagnitude k ≤ 32256 := by
  decide

theorem mulawSample_mod (b : Nat) : mulawSample (b % 256) = mulawSample b := by
  simp only [mulawSample, Nat.mod_mod]

theorem ulawMagnitude_mod (b : Nat) : ulawMagnitude (b % 256) = ulawMagnitude b := by
  simp only [ulawMagnitude, Nat.mod_mod]

theorem ulawSpec_mod (b : Nat) : ulawSpec (b % 256) = ulawSpec b := by
  simp only [ulawSpec, ulawMagnitude_mod, Nat.mod_mod]

theorem alawSample_mod (b : Nat) : alawSample (b % 256) = alawSample b := by
  simp only [alawSample, Nat.mod_mod]

theorem alawMagnitude_mod (b : Nat) : alawMagnitude (b % 256) = alawMagnitude b := by
  simp only [alawMagnitude, Nat.mod_mod]

theorem alawSpec_mod (b : Nat) : alawSpec (b % 256) = alawSpec b := by
  simp only [alawSpec, alawMagnitude_mod, Nat.mod_mod]

/-- The loop of the two companding codecs, run over a payload that lies inside
the input, returns one sample per payload byte, in order. -/
theorem lawLoop_eq (f : Nat → Int) (input : List Nat) (p : Nat) :
    ∀ (n i : Nat) (out : List Int), p + i + n ≤ input.length →
      lawLoop f input p n i out
        = .ok (out ++ ((input.drop (p + i)).take n).map (fun b => f (b % 256))) := by
  intro n
  induction n with
  | zero => intro i out _; simp [lawLoop, pure, Except.pure]
  | succ n ih =>
    intro i out h
    have hi : p + i < input.length := by omega
    unfold lawLoop
    simp only [readByte_eq input (p + i) hi, bind, Except.bind]
    rw [ih (i + 1) _ (by omega)]
    rw [List.drop_eq_getElem_cons hi]
    simp [Nat.add_assoc]

/-- C8: the branchless u-law expression of lines 237-239 equals the rule
(`x = NOT b`, `e = (x >> 4) & 7`, `m = x & 15`, magnitude
`T[e] + (m << (e + 3))`, negated when `x & 0x80` is set) for every byte; the
magnitude never exceeds 32124; byte `0xFF` decodes to 0; and for every payload
that lies inside the input the u-law case returns, with the input unchanged,
a buffer holding exactly one sample per payload byte, in input order, sample
`i` being the rule applied to byte `i` alone. -/
theorem ulaw_decode_follows_rule (input : List Nat) (p : Parsed) (fmt : Option ALFormat)
    (hc : p.codec = .ULaw) (hb : p.data + p.length ≤ input.length) :
    (∀ b : Nat, mulawSample b = ulawSpec b)
    ∧ (∀ b : Nat, ulawMagnitude b ≤ 32124)
    ∧ mulawSample 0xFF = 0
    ∧ decode input p fmt
        = .ok (some ⟨fmt, toInt32 (toInt32 p.length * 2), p.sampleFrequency,
            .samples (((input.drop p.data).take p.length).map ulawSpec), input⟩)
    ∧ (((input.drop p.data).take p.length).map ulawSpec).length = p.length := by
  have hs : ∀ b : Nat, mulawSample b = ulawSpec b := fun b => by
    rw [← mulawSample_mod, ← ulawSpec_mod]
    exact (mulaw_table_check (b % 256) (Nat.mod_lt _ (by decide))).1
  refine ⟨hs, ?_, by decide, ?_, ?_⟩
  · intro b
    rw [← ulawMagnitude_mod]
    exact (mulaw_table_check (b % 256) (Nat.mod_lt _ (by decide))).2
  · unfold decode
    rw [hc]
    simp only [lawLoop_eq mulawSample input p.data p.length 0 [] (by omega), bind, Except.bind,
      pure, Except.pure, List.nil_append, Nat.add_zero]
    have hf : (fun b => mulawSample (b % 256)) = ulawSpec := by
      funext b
      rw [mulawSample_mod]
      exact hs b
    rw [hf]
  · rw [List.length_map, List.length_take, List.length_drop]
    omega

/-- C8 at the u-law AU file with payload `FF 7F 00`: the samples returned are
0, 0 and -32124. -/
theorem ulaw_decode_follows_rule_witness :
    24 + 3 ≤ auUlawMono.length
    ∧ decode auUlawMono ⟨.ULaw, 24, 3, 1, 16, 8000, 1⟩ (some .Mono16)
        = .ok (some ⟨some .Mono16, 6, 8000, .samples [0, 0, -32124], auUlawMono⟩) :=
  ⟨by decide,
    (ulaw_decode_follows_rule auUlawMono ⟨.ULaw, 24, 3, 1, 16, 8000, 1⟩ (some .Mono16) rfl
      (by decide)).2.2.2.1⟩

/-- C9: for every byte the a-law computation of lines 254-263 equals the rule
(`x = b XOR 0x55`, `m = x & 15`, `seg = (x >> 4) & 7`, magnitude
`(m << 4) | 8` for segment 0, `(m << 4) | 0x108` for segment 1,
`((m << 4) | 0x108) << (seg - 1)` above; `+t` when bit 7 of `x` is set, `-t`
otherwise); the magnitude never exceeds 32256 and reaches it at byte `0xAA`;
byte `0xD5` decodes to +8; and for every payload that lies inside the input
the a-law case returns the rule applied to each payload byte, in order. -/
theorem alaw_decode_follows_rule (input : List Nat) (p : Parsed) (fmt : Option ALFormat)
    (hc : p.codec = .ALaw) (hb : p.data + p.length ≤ input.length) :
    (∀ b : Nat, alawSample b = alawSpec b)
    ∧ (∀ b : Nat, alawMagnitude b ≤ 32256)
    ∧ alawSample 0xAA = 32256
    ∧ alawSample 0xD5 = 8
    ∧ decode input p fmt
        = .ok (some ⟨fmt, toInt32 (toInt32 p.length * 2), p.sampleFrequency,
            .samples (((input.drop p.data).take p.length).map alawSpec), input⟩) := by
  have hs : ∀ b : Nat, alawSample b = alawSpec b := fun b => by
    rw [← alawSample_mod, ← alawSpec_mod]
    exact (alaw_table_check (b % 256) (Nat.mod_lt _ (by decide))).1
  refine ⟨hs, ?_, by decide, by decide, ?_⟩
  · intro b
    rw [← alawMagnitude_mod]
    exact (alaw_table_check (b % 256) (Nat.mod_lt _ (by decide))).2
  · unfold decode
    rw [hc]
    simp only [lawLoop_eq alawSample input p.data p.length 0 [] (by omega), bind, Except.bind,
      pure, Except.pure, List.nil_append, Nat.add_zero]
    have hf : (fun b => alawSample (b % 256)) = alawSpec := by
      funext b
      rw [alawSample_mod]
      exact hs b
    rw [hf]

/-- C9 at the a-law AU file with payload `D5 55 2A`: the samples returned are
8, -8 and -32256. -/
theorem alaw_decode_follows_rule_witness :
    24 + 3 ≤ auAlawMono.length
    ∧ decode auAlawMono ⟨.ALaw, 24, 3, 1, 16, 8000, 1⟩ (some .Mono16)
        = .ok (some ⟨some .Mono16, 6, 8000, .samples [8, -8, -32256], auAlawMono⟩) :=
  ⟨by decide,
    (alaw_decode_follows_rule auAlawMono ⟨.ALaw, 24, 3, 1, 16, 8000, 1⟩ (some .Mono16) rfl
      (by decide)).2.2.2.2⟩

/-! ### IMA4: which samples a loop stores to -/

theorem bind_eq_ok {α β : Type} (x : Except Fault α) (f : α → Except Fault β) (b : β)
    (h : (x >>= f) = .ok b) : ∃ a, x = .ok a ∧ f a = .ok b := by
  cases x with
  | error e => simp [bind, Except.bind] at h
  | ok a => exact ⟨a, rfl, h⟩

theorem store_sample_same (b b' : SampleBuffer) (k : Nat) (v : Int)
    (h : b.store k v = .ok b') : b'.sample k = some v := by
  unfold SampleBuffer.store at h
  split at h
  · cases h
    simp [SampleBuffer.sample]
  · cases h

theorem store_sample_other (b b' : SampleBuffer) (j k : Nat) (v : Int)
    (h : b.store j v = .ok b') (hjk : j ≠ k) : b'.sample k = b.sample k := by
  unfold SampleBuffer.store at h
  split at h
  · cases h
    simp [SampleBuffer.sample, List.find?, hjk]
  · cases h

/-- The nibbles of a channel store at `ptr_ch` and above. -/
theorem ima4Nibbles_frame (input : List Nat) (p nc : Nat) :
    ∀ (n q d ptr_ch : Nat) (c : ChannelState) (buf : SampleBuffer)
      (r : Nat × ChannelState × SampleBuffer),
      ima4Nibbles input p nc n q d ptr_ch c buf = .ok r →
      ∀ k, k < ptr_ch → r.2.2.sample k = buf.sample k := by
  intro n
  induction n with
  | zero =>
    intro q d ptr_ch c buf r h k _
    simp only [ima4Nibbles, pure, Except.pure] at h
    cases h
    rfl
  | succ n ih =>
    intro q d ptr_ch c buf r h k hk
    unfold ima4Nibbles at h
    obtain ⟨byte, -, h⟩ := bind_eq_ok _ _ _ h
    obtain ⟨c1, -, h⟩ := bind_eq_ok _ _ _ h
    obtain ⟨buf1, hst, h⟩ := bind_eq_ok _ _ _ h
    rw [ih _ _ _ _ _ r h k (by omega)]
    exact store_sample_other _ _ _ _ _ hst (by omega)

/-- The channels `chn ..` of a group store at `ptr + chn` and above. -/
theorem ima4Channels_frame (input : List Nat) (p nc ptr : Nat) :
    ∀ (n chn d : Nat) (chans : List ChannelState) (buf : SampleBuffer)
      (r : Nat × List ChannelState × SampleBuffer),
      ima4Channels input p nc ptr n chn d chans buf = .ok r →
      ∀ k, k < ptr + chn → r.2.2.sample k = buf.sample k := by
  intro n
  induction n with
  | zero =>
    intro chn d chans buf r h k _
    simp only [ima4Channels, pure, Except.pure] at h
    cases h
    rfl
  | succ n ih =>
    intro chn d chans buf r h k hk
    unfold ima4Channels at h
    split at h
    · cases h
    · obtain ⟨r1, hn, h⟩ := bind_eq_ok _ _ _ h
      obtain ⟨d1, c1, buf1⟩ := r1
      simp only [] at h
      rw [ih _ _ _ _ r h k (by omega)]
      exact ima4Nibbles_frame input p nc _ _ _ _ _ _ _ hn k hk

/-- The groups of a block store at `ptr` and above and never lower `ptr`. -/
theorem ima4Groups_frame (input : List Nat) (p nc ba : Nat) :
    ∀ (fuel j : Nat) (chans : List ChannelState) (st st' : Ima4State),
      ima4Groups input p nc ba fuel j chans st = .ok st' →
      st.ptr ≤ st'.ptr ∧ ∀ k, k < st.ptr → st'.buf.sample k = st.buf.sample k := by
  intro fuel
  induction fuel with
  | zero =>
    intro j chans st st' h
    unfold ima4Groups at h
    split at h
    · cases h
    · cases h
      exact ⟨le_refl _, fun _ _ => rfl⟩
  | succ fuel ih =>
    intro j chans st st' h
    unfold ima4Groups at h
    split at h
    · obtain ⟨r1, hc, h⟩ := bind_eq_ok _ _ _ h
      obtain ⟨d1, chans1, buf1⟩ := r1
      simp only [] at h
      obtain ⟨hle, hfr⟩ := ih _ _ _ _ h
      simp only [] at hle hfr
      refine ⟨by omega, fun k hk => ?_⟩
      rw [hfr k (by omega)]
      exact ima4Channels_frame input p nc st.ptr _ _ _ _ _ _ hc k (by omega)
    · cases h
      exact ⟨le_refl _, fun _ _ => rfl⟩

theorem ima4Block_frame (input : List Nat) (p nc ba : Nat) (st st' : Ima4State)
    (h : ima4Block input p nc ba st = .ok st') :
    st.ptr ≤ st'.ptr ∧ ∀ k, k < st.ptr → st'.buf.sample k = st.buf.sample k := by
  unfold ima4Block at h
  obtain ⟨r1, -, h⟩ := bind_eq_ok _ _ _ h
  obtain ⟨d1, chans1⟩ := r1
  exact ima4Groups_frame input p nc ba _ _ _ ⟨d1, st.ptr, st.buf⟩ st' h

theorem ima4Blocks_frame (input : List Nat) (p nc ba : Nat) :
    ∀ (n : Nat) (st st' : Ima4State), ima4Blocks input p nc ba n st = .ok st' →
      ∀ k, k < st.ptr → st'.buf.sample k = st.buf.sample k := by
  intro n
  induction n with
  | zero =>
    intro st st' h k _
    simp only [ima4Blocks, pure, Except.pure] at h
    cases h
    rfl
  | succ n ih =>
    intro st st' h k hk
    unfold ima4Blocks at h
    obtain ⟨st1, hb, h⟩ := bind_eq_ok _ _ _ h
    obtain ⟨hle, hfr⟩ := ima4Block_frame input p nc ba st st1 hb
    rw [ih st1 st' h k (by omega)]
    exact hfr k hk

/-- The preamble loop moves `d` by 4 per channel and appends to `chans`. -/
theorem ima4Preamble_spec (input : List Nat) (p : Nat) :
    ∀ (n d : Nat) (chans : List ChannelState) (r : Nat × List ChannelState),
      ima4Preamble input p n d chans = .ok r →
      r.1 = d + 4 * n ∧ ∃ tail, r.2 = chans ++ tail := by
  intro n
  induction n with
  | zero =>
    intro d chans r h
    simp only [ima4Preamble, pure, Except.pure] at h
    cases h
    exact ⟨rfl, [], by simp⟩
  | succ n ih =>
    intro d chans r h
    unfold ima4Preamble at h
    obtain ⟨b0, -, h⟩ := bind_eq_ok _ _ _ h
    obtain ⟨b1, -, h⟩ := bind_eq_ok _ _ _ h
    obtain ⟨b2, -, h⟩ := bind_eq_ok _ _ _ h
    obtain ⟨hd, tail, ht⟩ := ih _ _ _ h
    exact ⟨by omega, ⟨toInt16 ((b0 ||| (b1 <<< 8) : Nat) : Int), b2⟩ :: tail, by rw [ht]; simp⟩

/-! ### IMA4: the loops end within their iteration bound -/

theorem bind_ne_fuel {α β : Type} (x : Except Fault α) (f : α → Except Fault β)
    (hx : x ≠ .error .outOfFuel) (hf : ∀ a, x = .ok a → f a ≠ .error .outOfFuel) :
    (x >>= f) ≠ .error .outOfFuel := by
  cases x with
  | error e =>
    intro h
    apply hx
    simpa [bind, Except.bind] using h
  | ok a => exact hf a rfl

theorem readByte_ne_fuel (data : List Nat) (i : Nat) :
    readByte data i ≠ .error .outOfFuel := by
  unfold readByte
  split <;> simp

theorem ima4Nibble_ne_fuel (c : ChannelState) (nibble : Nat) :
    ima4Nibble c nibble ≠ .error .outOfFuel := by
  unfold ima4Nibble
  simp only []
  split <;> simp [pure, Except.pure]

theorem store_ne_fuel (b : SampleBuffer) (k : Nat) (v : Int) :
    b.store k v ≠ .error .outOfFuel := by
  unfold SampleBuffer.store
  split <;> simp [pure, Except.pure]

theorem ima4Preamble_ne_fuel (input : List Nat) (p : Nat) :
    ∀ (n d : Nat) (chans : List ChannelState),
      ima4Preamble input p n d chans ≠ .error .outOfFuel := by
  intro n
  induction n with
  | zero => intro d chans; simp [ima4Preamble, pure, Except.pure]
  | succ n ih =>
    intro d chans
    unfold ima4Preamble
    refine bind_ne_fuel _ _ (readByte_ne_fuel _ _) fun b0 _ => ?_
    refine bind_ne_fuel _ _ (readByte_ne_fuel _ _) fun b1 _ => ?_
    refine bind_ne_fuel _ _ (readByte_ne_fuel _ _) fun b2 _ => ?_
    exact ih _ _

theorem ima4Nibbles_ne_fuel (input : List Nat) (p nc : Nat) :
    ∀ (n q d ptr_ch : Nat) (c : ChannelState) (buf : SampleBuffer),
      ima4Nibbles input p nc n q d ptr_ch c buf ≠ .error .outOfFuel := by
  intro n
  induction n with
  | zero => intro q d ptr_ch c buf; simp [ima4Nibbles, pure, Except.pure]
  | succ n ih =>
    intro q d ptr_ch c buf
    unfold ima4Nibbles
    refine bind_ne_fuel _ _ (readByte_ne_fuel _ _) fun byte _ => ?_
    refine bind_ne_fuel _ _ (ima4Nibble_ne_fuel _ _) fun c1 _ => ?_
    refine bind_ne_fuel _ _ (store_ne_fuel _ _ _) fun buf1 _ => ?_
    exact ih _ _ _ _ _

theorem ima4Channels_ne_fuel (input : List Nat) (p nc ptr : Nat) :
    ∀ (n chn d : Nat) (chans : List ChannelState) (buf : SampleBuffer),
      ima4Channels input p nc ptr n chn d chans buf ≠ .error .outOfFuel := by
  intro n
  induction n with
  | zero => intro chn d chans buf; simp [ima4Channels, pure, Except.pure]
  | succ n ih =>
    intro chn d chans buf
    unfold ima4Channels
    split
    · simp
    · refine bind_ne_fuel _ _ (ima4Nibbles_ne_fuel _ _ _ _ _ _ _ _ _) fun r _ => ?_
      exact ih _ _ _ _

/-- The loop over the groups of a block ends within the fuel it is given:
`j` grows by `numChannels * 4` in every pass. -/
theorem ima4Groups_ne_fuel (input : List Nat) (p nc ba : Nat) :
    ∀ (fuel j : Nat) (chans : List ChannelState) (st : Ima4State),
      ba ≤ j + fuel * (nc * 4) →
      ima4Groups input p nc ba fuel j chans st ≠ .error .outOfFuel := by
  intro fuel
  induction fuel with
  | zero =>
    intro j chans st hj
    unfold ima4Groups
    rw [if_neg (by omega)]
    simp [pure, Except.pure]
  | succ fuel ih =>
    intro j chans st hj
    unfold ima4Groups
    split
    · refine bind_ne_fuel _ _ (ima4Channels_ne_fuel _ _ _ _ _ _ _ _ _) fun r _ => ?_
      obtain ⟨d1, chans1, buf1⟩ := r
      exact ih _ _ _ (by rw [Nat.add_mul] at hj; omega)
    · simp [pure, Except.pure]

theorem ima4Block_ne_fuel (input : List Nat) (p nc ba : Nat) (hnc : 1 ≤ nc) (st : Ima4State) :
    ima4Block input p nc ba st ≠ .error .outOfFuel := by
  unfold ima4Block
  refine bind_ne_fuel _ _ (ima4Preamble_ne_fuel _ _ _ _ _) fun r _ => ?_
  obtain ⟨d1, chans1⟩ := r
  refine ima4Groups_ne_fuel input p nc ba _ _ _ _ ?_
  have : ba * 1 ≤ ba * (nc * 4) := Nat.mul_le_mul_left _ (by omega)
  omega

theorem ima4Blocks_ne_fuel (input : List Nat) (p nc ba : Nat) (hnc : 1 ≤ nc) :
    ∀ (n : Nat) (st : Ima4State), ima4Blocks input p nc ba n st ≠ .error .outOfFuel := by
  intro n
  induction n with
  | zero => intro st; simp [ima4Blocks, pure, Except.pure]
  | succ n ih =>
    intro st
    unfold ima4Blocks
    exact bind_ne_fuel _ _ (ima4Block_ne_fuel input p nc ba hnc st) fun st1 _ => ih st1

/-! ### IMA4: the first sample of a block -/

theorem ima4Nibble_zero : ima4Nibble ⟨0, 0⟩ 0 = .ok ⟨0, 0⟩ := by rfl

/-- One block whose channel-0 preamble is predictor 0, step index 0 and whose
first nibble is 0 leaves 0 in its first output sample and moves `ptr` on. -/
theorem ima4Block_first_sample (input : List Nat) (p nc ba : Nat) (st st' : Ima4State) (b : Nat)
    (hnc : 1 ≤ nc) (hg : nc * 4 < ba)
    (h0 : readByte input (p + st.d) = .ok 0)
    (h1 : readByte input (p + st.d + 1) = .ok 0)
    (h2 : readByte input (p + st.d + 2) = .ok 0)
    (hb : readByte input (p + (st.d + nc * 4)) = .ok b) (hnib : b &&& 0xf = 0)
    (h : ima4Block input p nc ba st = .ok st') :
    st'.buf.sample st.ptr = some 0 ∧ st.ptr < st'.ptr := by
  obtain ⟨m, rfl⟩ : ∃ m, nc = m + 1 := ⟨nc - 1, by omega⟩
  obtain ⟨f, rfl⟩ : ∃ f, ba = f + 1 := ⟨ba - 1, by omega⟩
  unfold ima4Block at h
  obtain ⟨r1, hpre, h⟩ := bind_eq_ok _ _ _ h
  obtain ⟨d1, chans1⟩ := r1
  simp only [] at h
  -- the preamble of channel 0
  unfold ima4Preamble at hpre
  simp only [h0, h1, h2, bind, Except.bind] at hpre
  obtain ⟨hd1, tail, hch1⟩ := ima4Preamble_spec input p _ _ _ _ hpre
  simp only [] at hd1 hch1
  have hd1' : d1 = st.d + (m + 1) * 4 := by omega
  have hget : chans1.get? 0 = some ⟨0, 0⟩ := by rw [hch1]; rfl
  -- the first group
  unfold ima4Groups at h
  rw [if_pos hg] at h
  obtain ⟨r2, hch, h⟩ := bind_eq_ok _ _ _ h
  obtain ⟨d2, chans2, buf2⟩ := r2
  simp only [] at h hch
  obtain ⟨hle, hfr⟩ := ima4Groups_frame input p _ _ _ _ _ _ _ h
  simp only [] at hle hfr
  refine ⟨?_, by omega⟩
  rw [hfr st.ptr (by omega)]
  -- channel 0 of the first group
  unfold ima4Channels at hch
  simp only [hget] at hch
  obtain ⟨r3, hnb, hch⟩ := bind_eq_ok _ _ _ hch
  obtain ⟨d3, c3, buf3⟩ := r3
  simp only [] at hch
  have := ima4Channels_frame input p _ _ _ _ _ _ _ _ hch st.ptr (by omega)
  simp only [] at this
  rw [this]
  -- the first nibble
  unfold ima4Nibbles at hnb
  rw [hd1'] at hnb
  simp only [hb, bind, Except.bind, Nat.zero_mod, if_true, hnib, ima4Nibble_zero] at hnb
  obtain ⟨buf4, hst, hnb⟩ := bind_eq_ok _ _ _ hnb
  have := ima4Nibbles_frame input p _ _ _ _ _ _ _ _ hnb st.ptr (by omega)
  simp only [] at this
  rw [this]
  exact store_sample_same _ _ _ _ hst

/-- C10 as stated fails: for the mono block `00 00 00 00 10 32 54 76`
(predictor 0, step index 0, first nibble 0) the decoder returns and the first
output sample is 0, which is not strictly less than 0. -/
theorem ima4_first_sample_not_negative :
    ¬ (∀ v, (decodeIMA4 ima4MonoBlock 0 8 1 8).map
              (fun r => r.bind (fun x => x.1.sample 0)) = .ok (some v)
          → v < 0 ∧ v = -(step_table.getD 0 0 / 8)) := by
  intro h
  have h0 := (h 0 rfl).1
  omega

/-- C10 as amended: take any state at the head of the loop over the blocks,
with one block or more to come, one channel or more and a block that holds a
group of encoded bytes. If the channel-0 preamble of the block at the head
sets predictor 0 and step index 0, and the low nibble of the first encoded
byte is 0, then the loop returns and, in the buffer it leaves, the first
output sample of that block equals `-(step_table[0] >> 3)`, which is 0 (it is
not negative); or else the loop reaches undefined behaviour, a read, write or
table index out of bounds (the iteration bound of the model is never what
stops it). `decodeIMA4` runs this loop from `d = 0`, `ptr = 0`. -/
theorem ima4_first_sample_is_zero (input : List Nat) (p nc ba n : Nat) (st : Ima4State)
    (b : Nat) (hnc : 1 ≤ nc) (hg : nc * 4 < ba)
    (h0 : readByte input (p + st.d) = .ok 0)
    (h1 : readByte input (p + st.d + 1) = .ok 0)
    (h2 : readByte input (p + st.d + 2) = .ok 0)
    (hb : readByte input (p + (st.d + nc * 4)) = .ok b) (hnib : b &&& 0xf = 0) :
    (∃ st', ima4Blocks input p nc ba (n + 1) st = .ok st'
        ∧ ∃ v, st'.buf.sample st.ptr = some v ∧ v = -(step_table.getD 0 0 / 8) ∧ v = 0)
    ∨ (∃ f, ima4Blocks input p nc ba (n + 1) st = .error f ∧ f ≠ .outOfFuel) := by
  cases hrun : ima4Blocks input p nc ba (n + 1) st with
  | error f =>
    refine Or.inr ⟨f, rfl, ?_⟩
    intro hf
    rw [hf] at hrun
    exact ima4Blocks_ne_fuel input p nc ba hnc (n + 1) st hrun
  | ok st' =>
    refine Or.inl ⟨st', rfl, ?_⟩
    unfold ima4Blocks at hrun
    obtain ⟨st1, hblk, hrest⟩ := bind_eq_ok _ _ _ hrun
    obtain ⟨hs, hlt⟩ := ima4Block_first_sample input p nc ba st st1 b hnc hg h0 h1 h2 hb hnib hblk
    refine ⟨0, ?_, by decide, rfl⟩
    rw [ima4Blocks_frame input p nc ba n st1 st' hrest st.ptr hlt]
    exact hs

/-- C10 as amended, at the mono block `00 00 00 00 10 32 54 76` decoded from
the initial state of `decodeIMA4` (a buffer of 28 bytes): the loop returns, and
the first sample is 0. -/
theorem ima4_first_sample_is_zero_witness :
    (1 ≤ 1 ∧ 1 * 4 < 8)
    ∧ (readByte ima4MonoBlock (0 + 0) = .ok 0 ∧ readByte ima4MonoBlock (0 + 0 + 1) = .ok 0
        ∧ readByte ima4MonoBlock (0 + 0 + 2) = .ok 0
        ∧ readByte ima4MonoBlock (0 + (0 + 1 * 4)) = .ok 0x10 ∧ 0x10 &&& 0xf = 0)
    ∧ ima4Blocks ima4MonoBlock 0 1 8 (0 + 1) ⟨0, 0, ⟨28, []⟩⟩
        = .ok ⟨8, 8, ⟨28, [(7, 88), (6, 47), (5, 27), (4, 15), (3, 8), (2, 4), (1, 1), (0, 0)]⟩⟩
    ∧ ((∃ st', ima4Blocks ima4MonoBlock 0 1 8 (0 + 1) ⟨0, 0, ⟨28, []⟩⟩ = .ok st'
          ∧ ∃ v, st'.buf.sample 0 = some v ∧ v = -(step_table.getD 0 0 / 8) ∧ v = 0)
        ∨ (∃ f, ima4Blocks ima4MonoBlock 0 1 8 (0 + 1) ⟨0, 0, ⟨28, []⟩⟩ = .error f
          ∧ f ≠ .outOfFuel)) :=
  ⟨by decide, ⟨rfl, rfl, rfl, rfl, by decide⟩, rfl,
    ima4_first_sample_is_zero ima4MonoBlock 0 1 8 0 ⟨0, 0, ⟨28, []⟩⟩ 0x10
      (by decide) (by decide) rfl rfl rfl rfl (by decide)⟩

/-! ### Bit depths other than 8 and 16 -/

/-- C14, the code at the failing input: on every platform the mono WAV image
with audio format 1 and 24 bits per sample is not rejected; the call returns
the 3 payload bytes and the tag stored through `format` is the value of a
variable that was never assigned. A channel count of 3 is rejected. -/
theorem wav_24_bit_mono_not_rejected (pf : Platform) :
    (alutLoadMemoryFromFileImage pf (wavImage 1 1 3 24 [1, 2, 3] []) 47).map
        (fun r => r.map (fun l => (l.format, l.size, l.buffer)))
      = .ok (some (none, 3, .input 44))
    ∧ alutLoadMemoryFromFileImage pf (wavImage 1 3 3 8 [1, 2, 3] []) 47 = .ok none := by
  rcases pf with ⟨_ | _, _ | _⟩ <;> exact ⟨rfl, rfl⟩

/-! ### IMA4: the step index, the bounds and the reported size -/

/-- After a nibble the step index is in `[0, 88]`, whatever it was before. -/
theorem ima4Nibble_index_le (c c' : ChannelState) (nibble : Nat)
    (h : ima4Nibble c nibble = .ok c') : c'.index ≤ 88 := by
  unfold ima4Nibble at h
  simp only [] at h
  split at h
  · cases h
  · simp only [pure, Except.pure, Except.ok.injEq] at h
    rw [← h]
    simp only []
    split_ifs <;> omega

/-- C16, the code at the failing input: on every platform a mono IMA4 block
whose preamble step-index byte is 89, or 200, makes the first nibble index
`step_table` outside `[0, 88]`; the preamble value is used as it is read. -/
theorem ima4_preamble_index_not_clamped (pf : Platform) :
    alutLoadMemoryFromFileImage pf (wavImage 17 1 8 4 [0, 0, 89, 0, 0, 0, 0, 0] []) 52
      = .error .tableIndexOutOfBounds
    ∧ alutLoadMemoryFromFileImage pf (wavImage 17 1 8 4 [0, 0, 200, 0, 0, 0, 0, 0] []) 52
      = .error .tableIndexOutOfBounds := by
  rcases pf with ⟨_ | _, _ | _⟩ <;> exact ⟨rfl, rfl⟩

/-- C18, the code at the failing inputs, on every platform. Mono with block
align 1 and a payload of 1 byte that ends the input: the preamble read leaves
the input. Mono with block align 5 and a payload of 5 bytes that ends the
input: the first group leaves the input. Stereo with block align 9 and a
payload of 9 bytes followed by 8 more bytes of input: the first group stores
16 samples into the 28 bytes allocated. -/
theorem ima4_leaves_its_buffers (pf : Platform) :
    alutLoadMemoryFromFileImage pf (wavImage 17 1 1 4 [0] []) 45 = .error .readOutOfBounds
    ∧ alutLoadMemoryFromFileImage pf (wavImage 17 1 5 4 [0, 0, 0, 0, 0] []) 49
      = .error .readOutOfBounds
    ∧ alutLoadMemoryFromFileImage pf
        (wavImage 17 2 9 4 (List.replicate 9 0) (List.replicate 8 0)) 61
      = .error .writeOutOfBounds := by
  rcases pf with ⟨_ | _, _ | _⟩ <;> exact ⟨rfl, rfl, rfl⟩

/-- C19, the code at the failing input, on every platform: for one mono block
of 8 bytes (block align 8) the decode loop stores 8 samples, 16 bytes, and the
byte length reported is 28; the samples 8 to 13 of the buffer are never
stored. For one stereo block of 16 bytes it stores 16 samples, 32 bytes, and
reports 56. -/
theorem ima4_size_exceeds_samples_stored (pf : Platform) :
    (alutLoadMemoryFromFileImage pf (wavImage 17 1 8 4 ima4MonoBlock []) 52).map
        (fun r => r.map (fun l => (l.size, l.buffer)))
      = .ok (some (28, .sampleBuffer
          ⟨28, [(7, 88), (6, 47), (5, 27), (4, 15), (3, 8), (2, 4), (1, 1), (0, 0)]⟩))
    ∧ SampleBuffer.sample
        ⟨28, [(7, 88), (6, 47), (5, 27), (4, 15), (3, 8), (2, 4), (1, 1), (0, 0)]⟩ 8 = none
    ∧ (alutLoadMemoryFromFileImage pf (wavImage 17 2 16 4 (List.replicate 16 0) []) 60).map
        (fun r => r.map (fun l => (l.size,
          match l.buffer with
          | .sampleBuffer b => b.stores.length
          | _ => 0)))
      = .ok (some (56, 16)) := by
  rcases pf with ⟨_ | _, _ | _⟩ <;> exact ⟨rfl, rfl, rfl⟩

/-! ### What a call that returns a buffer went through -/

theorem alutLoad_of_parse_none (pf : Platform) (data : List Nat) (n : Int) (s : Stream)
    (h : parseFileImage pf data n = .ok (s, none)) :
    alutLoadMemoryFromFileImage pf data n = .ok none := by
  unfold alutLoadMemoryFromFileImage
  rw [h]
  rfl

theorem alutLoad_inv (pf : Platform) (data : List Nat) (n : Int) (r : Loaded)
    (h : alutLoadMemoryFromFileImage pf data n = .ok (some r)) :
    ∃ s p fmt, parseFileImage pf data n = .ok (s, some p)
      ∧ formatSwitch p.numChannels p.bitsPerSample = some fmt
      ∧ decode data p fmt = .ok (some r) := by
  unfold alutLoadMemoryFromFileImage at h
  obtain ⟨res, hp, h⟩ := bind_eq_ok _ _ _ h
  obtain ⟨s, po⟩ := res
  cases po with
  | none => simp [pure, Except.pure] at h
  | some p =>
    simp only [] at h
    cases hf : formatSwitch p.numChannels p.bitsPerSample with
    | none => simp [hf, pure, Except.pure] at h
    | some fmt =>
      simp only [hf] at h
      exact ⟨s, p, fmt, hp, hf, h⟩

theorem readByte_inv (data : List Nat) (i b : Nat) (h : readByte data i = .ok b) :
    ∃ x, data[i]? = some x ∧ b = x % 256 := by
  unfold readByte at h
  split at h
  · rename_i x hx
    cases h
    exact ⟨x, by simpa using hx, rfl⟩
  · cases h

theorem readBE32_snd (pf : Platform) (rest : List Nat) :
    readBE32 pf (0x2e :: 0x73 :: 0x6e :: 0x64 :: rest) 0 = .ok 0x2E736E64 := by
  rcases pf with ⟨_ | _, _ | _⟩ <;> rfl

/-! ### The byte length reported -/

theorem store_capacity (b b' : SampleBuffer) (k : Nat) (v : Int)
    (h : b.store k v = .ok b') : b'.capacity = b.capacity := by
  unfold SampleBuffer.store at h
  split at h
  · cases h; rfl
  · cases h

theorem ima4Nibbles_capacity (input : List Nat) (p nc : Nat) :
    ∀ (n q d ptr_ch : Nat) (c : ChannelState) (buf : SampleBuffer)
      (r : Nat × ChannelState × SampleBuffer),
      ima4Nibbles input p nc n q d ptr_ch c buf = .ok r → r.2.2.capacity = buf.capacity := by
  intro n
  induction n with
  | zero =>
    intro q d ptr_ch c buf r h
    simp only [ima4Nibbles, pure, Except.pure] at h
    cases h
    rfl
  | succ n ih =>
    intro q d ptr_ch c buf r h
    unfold ima4Nibbles at h
    obtain ⟨byte, -, h⟩ := bind_eq_ok _ _ _ h
    obtain ⟨c1, -, h⟩ := bind_eq_ok _ _ _ h
    obtain ⟨buf1, hst, h⟩ := bind_eq_ok _ _ _ h
    rw [ih _ _ _ _ _ r h]
    exact store_capacity _ _ _ _ hst

theorem ima4Channels_capacity (input : List Nat) (p nc ptr : Nat) :
    ∀ (n chn d : Nat) (chans : List ChannelState) (buf : SampleBuffer)
      (r : Nat × List ChannelState × SampleBuffer),
      ima4Channels input p nc ptr n chn d chans buf = .ok r → r.2.2.capacity = buf.capacity := by
  intro n
  induction n with
  | zero =>
    intro chn d chans buf r h
    simp only [ima4Channels, pure, Except.pure] at h
    cases h
    rfl
  | succ n ih =>
    intro chn d chans buf r h
    unfold ima4Channels at h
    split at h
    · cases h
    · obtain ⟨r1, hn, h⟩ := bind_eq_ok _ _ _ h
      obtain ⟨d1, c1, buf1⟩ := r1
      simp only [] at h
      rw [ih _ _ _ _ r h]
      exact ima4Nibbles_capacity input p nc _ _ _ _ _ _ _ hn

theorem ima4Groups_capacity (input : List Nat) (p nc ba : Nat) :
    ∀ (fuel j : Nat) (chans : List ChannelState) (st st' : Ima4State),
      ima4Groups input p nc ba fuel j chans st = .ok st' →
      st'.buf.capacity = st.buf.capacity := by
  intro fuel
  induction fuel with
  | zero =>
    intro j chans st st' h
    unfold ima4Groups at h
    split at h
    · cases h
    · cases h; rfl
  | succ fuel ih =>
    intro j chans st st' h
    unfold ima4Groups at h
    split at h
    · obtain ⟨r1, hc, h⟩ := bind_eq_ok _ _ _ h
      obtain ⟨d1, chans1, buf1⟩ := r1
      simp only [] at h
      rw [ih _ _ _ _ h]
      exact ima4Channels_capacity input p nc st.ptr _ _ _ _ _ _ hc
    · cases h; rfl

theorem ima4Blocks_capacity (input : List Nat) (p nc ba : Nat) :
    ∀ (n : Nat) (st st' : Ima4State), ima4Blocks input p nc ba n st = .ok st' →
      st'.buf.capacity = st.buf.capacity := by
  intro n
  induction n with
  | zero =>
    intro st st' h
    simp only [ima4Blocks, pure, Except.pure] at h
    cases h
    rfl
  | succ n ih =>
    intro st st' h
    unfold ima4Blocks at h
    obtain ⟨st1, hb, h⟩ := bind_eq_ok _ _ _ h
    rw [ih st1 st' h]
    unfold ima4Block at hb
    obtain ⟨r1, -, hb⟩ := bind_eq_ok _ _ _ hb
    obtain ⟨d1, chans1⟩ := r1
    exact ima4Groups_capacity input p nc ba _ _ _ ⟨d1, st.ptr, st.buf⟩ st1 hb

/-- The buffer `decodeIMA4` returns has the capacity asked of `malloc` on line
271: `effective_length`, or 1 when that is 0. -/
theorem decodeIMA4_capacity (input : List Nat) (p length : Nat) (nc ba : Int)
    (buf : SampleBuffer) (eff : Nat)
    (h : decodeIMA4 input p length nc ba = .ok (some (buf, eff))) :
    buf.capacity = if eff = 0 then 1 else eff := by
  unfold decodeIMA4 at h
  split at h
  · cases h
  · simp only [] at h
    split at h
    · cases h
    · obtain ⟨st, hst, h⟩ := bind_eq_ok _ _ _ h
      simp only [pure, Except.pure, Except.ok.injEq, Option.some.injEq, Prod.mk.injEq] at h
      obtain ⟨h1, h2⟩ := h
      rw [← h1, ← h2, ima4Blocks_capacity _ _ _ _ _ _ _ hst]

/-- The byte length the codec stage reports, for each codec. -/
theorem decode_size (input : List Nat) (p : Parsed) (fmt : Option ALFormat) (r : Loaded)
    (h : decode input p fmt = .ok (some r)) :
    ((p.codec = .Linear ∨ p.codec = .PCM8s ∨ p.codec = .PCM16) → p.length < 2147483648 →
        r.size = p.length)
    ∧ ((p.codec = .ULaw ∨ p.codec = .ALaw) → 2 * p.length < 2147483648 →
        r.size = 2 * p.length)
    ∧ (p.codec = .IMA4 → ∃ buf, r.buffer = .sampleBuffer buf
        ∧ (buf.capacity < 2147483648 →
            (r.size = 0 ∧ buf.capacity = 1) ∨ r.size = buf.capacity)) := by
  unfold decode at h
  cases hc : p.codec <;> simp only [hc] at h
  · simp only [pure, Except.pure, Except.ok.injEq, Option.some.injEq] at h
    subst h
    simp [toInt32]
    intro hl; omega
  · obtain ⟨i1, -, h⟩ := bind_eq_ok _ _ _ h
    simp only [pure, Except.pure, Except.ok.injEq, Option.some.injEq] at h
    subst h
    simp [toInt32]
    intro hl; omega
  · obtain ⟨i1, -, h⟩ := bind_eq_ok _ _ _ h
    simp only [pure, Except.pure, Except.ok.injEq, Option.some.injEq] at h
    subst h
    simp [toInt32]
    intro hl; omega
  · obtain ⟨i1, -, h⟩ := bind_eq_ok _ _ _ h
    simp only [pure, Except.pure, Except.ok.injEq, Option.some.injEq] at h
    subst h
    simp [toInt32]
    intro hl; omega
  · obtain ⟨i1, -, h⟩ := bind_eq_ok _ _ _ h
    simp only [pure, Except.pure, Except.ok.injEq, Option.some.injEq] at h
    subst h
    simp [toInt32]
    intro hl; omega
  · obtain ⟨res, hd, h⟩ := bind_eq_ok _ _ _ h
    cases res with
    | none => simp [pure, Except.pure] at h
    | some be =>
      obtain ⟨buf, eff⟩ := be
      simp only [pure, Except.pure, Except.ok.injEq, Option.some.injEq] at h
      subst h
      have hcap := decodeIMA4_capacity _ _ _ _ _ _ _ hd
      simp only [false_or, reduceCtorEq, false_implies, true_and, or_self, forall_const,
        IsEmpty.forall_iff]
      refine ⟨buf, rfl, fun hlt => ?_⟩
      unfold toInt32
      split_ifs at hcap with he
      · left; subst he; exact ⟨by decide, hcap⟩
      · right; rw [hcap] at hlt ⊢; omega

/-- C11 as stated fails, on a little-endian platform with signed `char`: for
the mono IMA4 image with block align 36 and one block the byte length reported
is 140, not `(36 - 1) / 1 * 4 * 1 * 2 = 280`. It also fails for the Linear
codec where the payload length does not fit `ALsizei`: on a big-endian
platform the 72-byte PCM-16 AU file with data offset 25 and data size -1 is
accepted with payload length `2 ^ 64 - 1` and the byte length reported is -1. -/
theorem reported_size_counterexample :
    ((alutLoadMemoryFromFileImage ⟨true, true⟩
        (wavImage 17 1 36 4 (List.replicate 36 0) []) 80).map (fun r => r.map Loaded.size)
      = .ok (some 140)
      ∧ (140 : Int) ≠ (36 - 1) / 1 * 4 * (36 / 36) * 2)
    ∧ ((parseFileImage ⟨true, false⟩ auPcm16RestOffset25 72).map
          (fun r => r.2.map (fun p => (p.codec, p.length)))
        = .ok (some (.Linear, 18446744073709551615))
      ∧ (alutLoadMemoryFromFileImage ⟨true, false⟩ auPcm16RestOffset25 72).map
          (fun r => r.map Loaded.size) = .ok (some (-1))) :=
  ⟨⟨rfl, by decide⟩, rfl, rfl⟩

/-- C11 as amended: for every call that returns a buffer, with `p` what the
parser handed to the codec stage, the byte length stored through `size` is
`p.length` for Linear, PCM8s and PCM16 when `p.length` fits `ALsizei`; it is
`2 * p.length` for u-law and a-law when that product fits `ALsizei`; and for
IMA4 it is the number of bytes allocated for the returned buffer when that
number fits `ALsizei`, counting the one-byte allocation made for an empty
result as 0. -/
theorem reported_size (pf : Platform) (data : List Nat) (n : Int) (r : Loaded)
    (h : alutLoadMemoryFromFileImage pf data n = .ok (some r)) :
    ∃ s p, parseFileImage pf data n = .ok (s, some p)
      ∧ ((p.codec = .Linear ∨ p.codec = .PCM8s ∨ p.codec = .PCM16) → p.length < 2147483648 →
          r.size = p.length)
      ∧ ((p.codec = .ULaw ∨ p.codec = .ALaw) → 2 * p.length < 2147483648 →
          r.size = 2 * p.length)
      ∧ (p.codec = .IMA4 → ∃ buf, r.buffer = .sampleBuffer buf
          ∧ (buf.capacity < 2147483648 →
              (r.size = 0 ∧ buf.capacity = 1) ∨ r.size = buf.capacity)) := by
  obtain ⟨s, p, fmt, hp, -, hd⟩ := alutLoad_inv pf data n r h
  exact ⟨s, p, hp, decode_size data p fmt r hd⟩

/-- C11 as amended, at the mono IMA4 image with block align 8 and one block:
the call returns, 28 bytes were allocated and 28 is reported. -/
theorem reported_size_witness :
    alutLoadMemoryFromFileImage ⟨true, true⟩ (wavImage 17 1 8 4 ima4MonoBlock []) 52
      = .ok (some ⟨some .Mono16, 28, 8000,
          .sampleBuffer ⟨28, [(7, 88), (6, 47), (5, 27), (4, 15), (3, 8), (2, 4), (1, 1), (0, 0)]⟩,
          wavImage 17 1 8 4 ima4MonoBlock []⟩)
    ∧ ∃ s p, parseFileImage ⟨true, true⟩ (wavImage 17 1 8 4 ima4MonoBlock []) 52 = .ok (s, some p)
      ∧ ((p.codec = .Linear ∨ p.codec = .PCM8s ∨ p.codec = .PCM16) → p.length < 2147483648 →
          (28 : Int) = p.length)
      ∧ ((p.codec = .ULaw ∨ p.codec = .ALaw) → 2 * p.length < 2147483648 →
          (28 : Int) = 2 * p.length)
      ∧ (p.codec = .IMA4 → ∃ buf,
          Returned.sampleBuffer
              ⟨28, [(7, 88), (6, 47), (5, 27), (4, 15), (3, 8), (2, 4), (1, 1), (0, 0)]⟩
            = .sampleBuffer buf
          ∧ (buf.capacity < 2147483648 →
              ((28 : Int) = 0 ∧ buf.capacity = 1) ∨ (28 : Int) = buf.capacity)) :=
  ⟨rfl,
    reported_size ⟨true, true⟩ (wavImage 17 1 8 4 ima4MonoBlock []) 52
      ⟨some .Mono16, 28, 8000,
        .sampleBuffer ⟨28, [(7, 88), (6, 47), (5, 27), (4, 15), (3, 8), (2, 4), (1, 1), (0, 0)]⟩,
        wavImage 17 1 8 4 ima4MonoBlock []⟩ rfl⟩

/-! ### The caller's buffer after the call -/

/-- The PCM8s loop of lines 209-211, when it returns: the length of the buffer
is kept, the bytes it went over each gained 128 modulo 256, the others are as
they were. -/
theorem pcm8sLoop_spec (p : Nat) :
    ∀ (n i : Nat) (buf buf' : List Nat), pcm8sLoop p n i buf = .ok buf' →
      buf'.length = buf.length
      ∧ ∀ k, buf'[k]? = if p + i ≤ k ∧ k < p + i + n
          then (buf[k]?).map (fun b => (b % 256 + 128) % 256) else buf[k]? := by
  intro n
  induction n with
  | zero =>
    intro i buf buf' h
    simp only [pcm8sLoop, pure, Except.pure, Except.ok.injEq] at h
    subst h
    refine ⟨rfl, fun k => ?_⟩
    rw [if_neg (by omega)]
  | succ n ih =>
    intro i buf buf' h
    unfold pcm8sLoop at h
    obtain ⟨b, hb, h⟩ := bind_eq_ok _ _ _ h
    obtain ⟨x, hx, rfl⟩ := readByte_inv _ _ _ hb
    obtain ⟨hl, hk⟩ := ih _ _ _ h
    rw [List.length_set] at hl
    refine ⟨hl, fun k => ?_⟩
    rw [hk k]
    by_cases hki : k = p + i
    · subst hki
      rw [if_neg (by omega), if_pos (by omega), hx]
      have hlt : p + i < buf.length := by
        by_contra hc
        rw [List.getElem?_eq_none (by omega)] at hx
        cases hx
      simp [List.getElem?_set, hlt]
    · rw [List.getElem?_set_ne (by omega)]
      by_cases hc : p + (i + 1) ≤ k ∧ k < p + (i + 1) + n
      · rw [if_pos hc, if_pos (by omega)]
      · rw [if_neg hc, if_neg (by omega)]

/-- The PCM8s loop returns when the bytes it goes over lie inside the buffer. -/
theorem pcm8sLoop_ok (p : Nat) :
    ∀ (n i : Nat) (buf : List Nat), p + i + n ≤ buf.length →
      ∃ buf', pcm8sLoop p n i buf = .ok buf' := by
  intro n
  induction n with
  | zero => intro i buf _; exact ⟨buf, rfl⟩
  | succ n ih =>
    intro i buf h
    unfold pcm8sLoop
    rw [readByte_eq buf (p + i) (by omega)]
    exact ih _ _ (by rw [List.length_set]; omega)

/-- The PCM16 loop of lines 216-218, when it returns: the length of the buffer
is kept, the two bytes of every sample it went over changed places, the other
bytes are as they were. -/
theorem pcm16Loop_spec (p : Nat) :
    ∀ (n i : Nat) (buf buf' : List Nat), pcm16Loop p n i buf = .ok buf' →
      buf'.length = buf.length
      ∧ ∀ k, buf'[k]? = if p + 2 * i ≤ k ∧ k < p + 2 * i + 2 * n
          then (buf[if (k - p) % 2 = 0 then k + 1 else k - 1]?).map (fun b => b % 256)
          else buf[k]? := by
  intro n
  induction n with
  | zero =>
    intro i buf buf' h
    simp only [pcm16Loop, pure, Except.pure, Except.ok.injEq] at h
    subst h
    refine ⟨rfl, fun k => ?_⟩
    rw [if_neg (by omega)]
  | succ n ih =>
    intro i buf buf' h
    unfold pcm16Loop at h
    obtain ⟨b0, hb0, h⟩ := bind_eq_ok _ _ _ h
    obtain ⟨b1, hb1, h⟩ := bind_eq_ok _ _ _ h
    obtain ⟨x0, hx0, rfl⟩ := readByte_inv _ _ _ hb0
    obtain ⟨x1, hx1, rfl⟩ := readByte_inv _ _ _ hb1
    obtain ⟨hl, hk⟩ := ih _ _ _ h
    rw [List.length_set, List.length_set] at hl
    have hlt : p + 2 * i + 1 < buf.length := by
      by_contra hc
      rw [List.getElem?_eq_none (by omega)] at hx1
      cases hx1
    refine ⟨hl, fun k => ?_⟩
    rw [hk k]
    by_cases hk0 : k = p + 2 * i
    · subst hk0
      rw [if_neg (by omega), if_pos (by omega), if_pos (by omega), hx1]
      rw [List.getElem?_set_ne (by omega)]
      simp [List.getElem?_set]
      omega
    by_cases hk1 : k = p + 2 * i + 1
    · subst hk1
      rw [if_neg (by omega), if_pos (by omega), if_neg (by omega)]
      have : p + 2 * i + 1 - 1 = p + 2 * i := by omega
      rw [this, hx0]
      simp [List.getElem?_set, hlt]
    by_cases hc : p + 2 * (i + 1) ≤ k ∧ k < p + 2 * (i + 1) + 2 * n
    · have hR : p + 2 * i ≤ k ∧ k < p + 2 * i + 2 * (n + 1) := by omega
      rw [if_pos hc, if_pos hR]
      by_cases hpar : (k - p) % 2 = 0
      · rw [if_pos hpar, List.getElem?_set_ne (by omega), List.getElem?_set_ne (by omega)]
      · rw [if_neg hpar, List.getElem?_set_ne (by omega), List.getElem?_set_ne (by omega)]
    · have hR : ¬ (p + 2 * i ≤ k ∧ k < p + 2 * i + 2 * (n + 1)) := by omega
      rw [if_neg hc, if_neg hR]
      rw [List.getElem?_set_ne (by omega), List.getElem?_set_ne (by omega)]

/-- The PCM16 loop returns when the samples it goes over lie inside the buffer. -/
theorem pcm16Loop_ok (p : Nat) :
    ∀ (n i : Nat) (buf : List Nat), p + 2 * i + 2 * n ≤ buf.length →
      ∃ buf', pcm16Loop p n i buf = .ok buf' := by
  intro n
  induction n with
  | zero => intro i buf _; exact ⟨buf, rfl⟩
  | succ n ih =>
    intro i buf h
    unfold pcm16Loop
    rw [readByte_eq buf (p + 2 * i) (by omega), readByte_eq buf (p + 2 * i + 1) (by omega)]
    exact ih _ _ (by rw [List.length_set, List.length_set]; omega)

/-- What the codec stage does to the caller's buffer, for each codec. -/
theorem decode_input (input : List Nat) (p : Parsed) (fmt : Option ALFormat) (r : Loaded)
    (h : decode input p fmt = .ok (some r)) :
    r.input.length = input.length
    ∧ (p.codec ≠ .PCM8s → p.codec ≠ .PCM16 → r.input = input)
    ∧ (p.codec = .PCM8s → ∀ k, r.input[k]? =
        if p.data ≤ k ∧ k < p.data + p.length
        then (input[k]?).map (fun b => (b % 256 + 128) % 256) else input[k]?)
    ∧ (p.codec = .PCM16 → ∀ k, r.input[k]? =
        if p.data ≤ k ∧ k < p.data + 2 * (p.length / 2)
        then (input[if (k - p.data) % 2 = 0 then k + 1 else k - 1]?).map (fun b => b % 256)
        else input[k]?) := by
  unfold decode at h
  cases hc : p.codec <;> simp only [hc] at h
  · simp only [pure, Except.pure, Except.ok.injEq, Option.some.injEq] at h
    subst h
    simp
  · obtain ⟨i1, hl, h⟩ := bind_eq_ok _ _ _ h
    simp only [pure, Except.pure, Except.ok.injEq, Option.some.injEq] at h
    subst h
    obtain ⟨h1, h2⟩ := pcm8sLoop_spec _ _ _ _ _ hl
    simp only [Nat.add_zero] at h2
    simp [h1, h2]
  · obtain ⟨i1, hl, h⟩ := bind_eq_ok _ _ _ h
    simp only [pure, Except.pure, Except.ok.injEq, Option.some.injEq] at h
    subst h
    obtain ⟨h1, h2⟩ := pcm16Loop_spec _ _ _ _ _ hl
    simp only [Nat.mul_zero, Nat.add_zero] at h2
    simp [h1, h2]
  · obtain ⟨i1, -, h⟩ := bind_eq_ok _ _ _ h
    simp only [pure, Except.pure, Except.ok.injEq, Option.some.injEq] at h
    subst h
    simp
  · obtain ⟨i1, -, h⟩ := bind_eq_ok _ _ _ h
    simp only [pure, Except.pure, Except.ok.injEq, Option.some.injEq] at h
    subst h
    simp
  · obtain ⟨res, hd, h⟩ := bind_eq_ok _ _ _ h
    cases res with
    | none => simp [pure, Except.pure] at h
    | some be =>
      obtain ⟨buf, eff⟩ := be
      simp only [pure, Except.pure, Except.ok.injEq, Option.some.injEq] at h
      subst h
      simp

/-- C12 as stated fails, on a little-endian platform with signed `char`: after
the call on the PCM-8 AU file with payload `01 02 03` the caller's buffer holds
`81 82 83` in the place of the payload. -/
theorem input_changed_counterexample :
    (alutLoadMemoryFromFileImage ⟨true, true⟩ auPcm8Mono 27).map (fun r => r.map Loaded.input)
      = .ok (some (auHeader8000 [0, 0, 0, 24] [0, 0, 0, 3] [0, 0, 0, 2] ++ [129, 130, 131]))
    ∧ auHeader8000 [0, 0, 0, 24] [0, 0, 0, 3] [0, 0, 0, 2] ++ [129, 130, 131] ≠ auPcm8Mono :=
  ⟨rfl, by decide⟩

/-- C12 as amended: for every call that returns a buffer, with `p` what the
parser handed to the codec stage, the caller's buffer keeps its length; for
Linear, u-law, a-law and IMA4 it is unchanged; for PCM8s every byte of the
payload has gained 128 modulo 256 and every other byte is unchanged; for PCM16
the two bytes of every whole 16-bit sample of the payload have changed places
and every other byte is unchanged. -/
theorem input_effect (pf : Platform) (data : List Nat) (n : Int) (r : Loaded)
    (h : alutLoadMemoryFromFileImage pf data n = .ok (some r)) :
    ∃ s p, parseFileImage pf data n = .ok (s, some p)
      ∧ r.input.length = data.length
      ∧ (p.codec ≠ .PCM8s → p.codec ≠ .PCM16 → r.input = data)
      ∧ (p.codec = .PCM8s → ∀ k, r.input[k]? =
          if p.data ≤ k ∧ k < p.data + p.length
          then (data[k]?).map (fun b => (b % 256 + 128) % 256) else data[k]?)
      ∧ (p.codec = .PCM16 → ∀ k, r.input[k]? =
          if p.data ≤ k ∧ k < p.data + 2 * (p.length / 2)
          then (data[if (k - p.data) % 2 = 0 then k + 1 else k - 1]?).map (fun b => b % 256)
          else data[k]?) := by
  obtain ⟨s, p, fmt, hp, -, hd⟩ := alutLoad_inv pf data n r h
  exact ⟨s, p, hp, decode_input data p fmt r hd⟩

/-- C12 as amended, at the PCM-16 AU file with payload `01 02 03 04` on a
little-endian platform: the call returns and the payload reads `02 01 04 03`. -/
theorem input_effect_witness :
    alutLoadMemoryFromFileImage ⟨true, true⟩ auPcm16Mono 28
      = .ok (some ⟨some .Mono16, 4, 8000, .input 24,
          auHeader8000 [0, 0, 0, 24] [0, 0, 0, 4] [0, 0, 0, 3] ++ [2, 1, 4, 3]⟩)
    ∧ ∃ s p, parseFileImage ⟨true, true⟩ auPcm16Mono 28 = .ok (s, some p)
      ∧ (auHeader8000 [0, 0, 0, 24] [0, 0, 0, 4] [0, 0, 0, 3] ++ [2, 1, 4, 3]).length
          = auPcm16Mono.length
      ∧ (p.codec ≠ .PCM8s → p.codec ≠ .PCM16 →
          auHeader8000 [0, 0, 0, 24] [0, 0, 0, 4] [0, 0, 0, 3] ++ [2, 1, 4, 3] = auPcm16Mono)
      ∧ (p.codec = .PCM8s → ∀ k,
          (auHeader8000 [0, 0, 0, 24] [0, 0, 0, 4] [0, 0, 0, 3] ++ [2, 1, 4, 3])[k]? =
          if p.data ≤ k ∧ k < p.data + p.length
          then (auPcm16Mono[k]?).map (fun b => (b % 256 + 128) % 256) else auPcm16Mono[k]?)
      ∧ (p.codec = .PCM16 → ∀ k,
          (auHeader8000 [0, 0, 0, 24] [0, 0, 0, 4] [0, 0, 0, 3] ++ [2, 1, 4, 3])[k]? =
          if p.data ≤ k ∧ k < p.data + 2 * (p.length / 2)
          then (auPcm16Mono[if (k - p.data) % 2 = 0 then k + 1 else k - 1]?).map
            (fun b => b % 256)
          else auPcm16Mono[k]?) :=
  ⟨rfl,
    input_effect ⟨true, true⟩ auPcm16Mono 28
      ⟨some .Mono16, 4, 8000, .input 24,
        auHeader8000 [0, 0, 0, 24] [0, 0, 0, 4] [0, 0, 0, 3] ++ [2, 1, 4, 3]⟩ rfl⟩

/-! ### A payload of length 0 -/

/-- The codec stage on a payload of length 0; for IMA4 the block align is taken
to be 1 or more and the channel count 2 or less. -/
theorem decode_zero_length (input : List Nat) (p : Parsed) (fmt : Option ALFormat)
    (h0 : p.length = 0)
    (hba : p.codec = .IMA4 → 1 ≤ p.blockAlign ∧ p.blockAlign < 16777216 ∧ p.numChannels ≤ 2) :
    decode input p fmt
      = .ok (some ⟨fmt, 0, p.sampleFrequency,
          match p.codec with
          | .Linear => .input p.data
          | .PCM8s => .input p.data
          | .PCM16 => .input p.data
          | .ULaw => .samples []
          | .ALaw => .samples []
          | .IMA4 => .sampleBuffer ⟨1, []⟩, input⟩) := by
  unfold decode
  cases hc : p.codec
  · simp [h0, toInt32, pure, Except.pure]
  · simp [h0, toInt32, pure, Except.pure, pcm8sLoop, bind, Except.bind]
  · simp [h0, toInt32, pure, Except.pure, pcm16Loop, bind, Except.bind]
  · simp [h0, toInt32, pure, Except.pure, lawLoop, bind, Except.bind]
  · simp [h0, toInt32, pure, Except.pure, lawLoop, bind, Except.bind]
  · obtain ⟨h1, h2, h3⟩ := hba hc
    have hb : toSize p.blockAlign ≠ 0 := by unfold toSize; omega
    have hn : ¬ p.numChannels > 2 := by omega
    simp only [decodeIMA4, if_neg hb, h0, if_neg hn, Nat.zero_div, ima4Blocks, bind,
      Except.bind, pure, Except.pure, if_true]
    simp [toInt32, toSize]

/-- An AU file whose data size field is 0 is rejected, whatever its data offset
and whatever follows the field. -/
theorem au_size_zero_rejected (pf : Platform) (o0 o1 o2 o3 : Nat) (rest : List Nat)
    (hl : (0x2e :: 0x73 :: 0x6e :: 0x64 :: o0 :: o1 :: o2 :: o3 :: 0 :: 0 :: 0 :: 0 :: rest).length
      < 2147483648) :
    alutLoadMemoryFromFileImage pf
      (0x2e :: 0x73 :: 0x6e :: 0x64 :: o0 :: o1 :: o2 :: o3 :: 0 :: 0 :: 0 :: 0 :: rest)
      ((0x2e :: 0x73 :: 0x6e :: 0x64 :: o0 :: o1 :: o2 :: o3 :: 0 :: 0 :: 0 :: 0 :: rest).length
        : Nat) = .ok none := by
  have hn : (0x2e :: 0x73 :: 0x6e :: 0x64 :: o0 :: o1 :: o2 :: o3 :: 0 :: 0 :: 0 :: 0
      :: rest).length < 18446744073709551616 := by omega
  have h4 : 4 ≤ (0x2e :: 0x73 :: 0x6e :: 0x64 :: o0 :: o1 :: o2 :: o3 :: 0 :: 0 :: 0 :: 0
      :: rest).length := by simp
  have hsnd : readBE32 pf (0x2e :: 0x73 :: 0x6e :: 0x64 :: o0 :: o1 :: o2 :: o3 :: 0 :: 0 :: 0
      :: 0 :: rest) 0 = .ok 0x2E736E64 := readBE32_snd pf _
  have hz : readBE32u8 (0x2e :: 0x73 :: 0x6e :: 0x64 :: o0 :: o1 :: o2 :: o3 :: 0 :: 0 :: 0
      :: 0 :: rest) (4 + 4) = .ok 0 := rfl
  generalize hd : (0x2e :: 0x73 :: 0x6e :: 0x64 :: o0 :: o1 :: o2 :: o3 :: 0 :: 0 :: 0 :: 0
      :: rest) = data at hl hn h4 hsnd hz ⊢
  have h0 : (⟨0, data.length, []⟩ : Stream).Inv data.length :=
    ⟨by simp, by intro e he; cases he⟩
  obtain ⟨ha, har, hap⟩ := Stream.advance_inv _ data.length 4 hn h0 h4
  simp only [Nat.zero_add] at har hap
  suffices hs : ∃ s, parseFileImage pf data (data.length : Nat) = .ok (s, none) by
    obtain ⟨s, hs⟩ := hs
    exact alutLoad_of_parse_none pf data _ s hs
  unfold parseFileImage
  simp only [toSize_natCast _ hn]
  rw [if_neg (by omega)]
  simp only [hsnd, bind, Except.bind]
  rw [if_neg (by decide), if_pos trivial]
  unfold parseAU
  by_cases h20 : (Stream.advance ⟨0, data.length, []⟩ 4).remainingLength < 20
  · rw [if_pos h20]
    exact ⟨_, rfl⟩
  · rw [if_neg h20, hap]
    obtain ⟨v0, e0⟩ := readBE32_ok pf data 4 (by omega)
    obtain ⟨v2, e2⟩ := readBE32_ok pf data (4 + 8) (by omega)
    obtain ⟨v3, e3⟩ := readBE32_ok pf data (4 + 12) (by omega)
    obtain ⟨v4, e4⟩ := readBE32_ok pf data (4 + 16) (by omega)
    simp only [e0, hz, e2, e3, e4, bind, Except.bind]
    rw [if_pos]
    · exact ⟨_, rfl⟩
    · right; left
      simp [toSize]

/-- C13 as stated fails, on a little-endian platform with signed `char`: the
AU file of 24 bytes whose data size field is 0 is rejected (line 166 returns
`NULL` for `length <= 0`); no byte length 0 is reported for it. -/
theorem zero_length_au_rejected :
    alutLoadMemoryFromFileImage ⟨true, true⟩ auSizeZero 24 = .ok none
    ∧ ¬ ∃ r, alutLoadMemoryFromFileImage ⟨true, true⟩ auSizeZero 24 = .ok (some r)
        ∧ r.size = 0 := by
  refine ⟨rfl, ?_⟩
  rintro ⟨r, hr, -⟩
  have h : alutLoadMemoryFromFileImage ⟨true, true⟩ auSizeZero 24 = .ok none := rfl
  rw [h] at hr
  cases hr

/-- C13 as amended: for every codec and every metadata, with block align 1 or
more (as a `fmt ` chunk can declare it) and at most 2 channels when the codec
is IMA4, decoding a payload of length 0 returns a buffer, reports byte length
0 and leaves the input as it was; and on every platform an AU file whose data
size field is 0 is rejected by the parser, so that the AU branch hands no
payload of length 0 to the decoder. -/
theorem zero_length_payload (input : List Nat) (p : Parsed) (fmt : Option ALFormat)
    (h0 : p.length = 0)
    (hba : p.codec = .IMA4 → 1 ≤ p.blockAlign ∧ p.blockAlign < 16777216 ∧ p.numChannels ≤ 2) :
    (∃ r, decode input p fmt = .ok (some r) ∧ r.size = 0 ∧ r.input = input ∧ r.format = fmt)
    ∧ ∀ (pf : Platform) (o0 o1 o2 o3 : Nat) (rest : List Nat),
        (0x2e :: 0x73 :: 0x6e :: 0x64 :: o0 :: o1 :: o2 :: o3 :: 0 :: 0 :: 0 :: 0 :: rest).length
          < 2147483648 →
        alutLoadMemoryFromFileImage pf
          (0x2e :: 0x73 :: 0x6e :: 0x64 :: o0 :: o1 :: o2 :: o3 :: 0 :: 0 :: 0 :: 0 :: rest)
          ((0x2e :: 0x73 :: 0x6e :: 0x64 :: o0 :: o1 :: o2 :: o3 :: 0 :: 0 :: 0 :: 0
            :: rest).length : Nat) = .ok none :=
  ⟨⟨_, decode_zero_length input p fmt h0 hba, rfl, rfl, rfl⟩,
    fun pf o0 o1 o2 o3 rest hl => au_size_zero_rejected pf o0 o1 o2 o3 rest hl⟩

/-- C13 as amended, at the WAV images with a `fmt ` chunk and a `data` chunk of
length 0 for the audio formats 1, 6, 7 and 17 (block align 36): each call
returns and reports byte length 0. -/
theorem zero_length_payload_witness :
    ((alutLoadMemoryFromFileImage ⟨true, true⟩ (wavImage 1 1 1 8 [] []) 44).map
        (fun r => r.map Loaded.size) = .ok (some 0)
      ∧ (alutLoadMemoryFromFileImage ⟨true, true⟩ (wavImage 6 1 1 8 [] []) 44).map
        (fun r => r.map Loaded.size) = .ok (some 0)
      ∧ (alutLoadMemoryFromFileImage ⟨true, true⟩ (wavImage 7 1 1 8 [] []) 44).map
        (fun r => r.map Loaded.size) = .ok (some 0)
      ∧ (alutLoadMemoryFromFileImage ⟨true, true⟩ (wavImage 17 1 36 4 [] []) 44).map
        (fun r => r.map Loaded.size) = .ok (some 0))
    ∧ ((0 : Nat) = 0 ∧ (1 : Int) ≤ 36 ∧ (36 : Int) < 16777216 ∧ (1 : Int) ≤ 2)
    ∧ (∃ r, decode (wavImage 17 1 36 4 [] []) ⟨.IMA4, 44, 0, 1, 16, 8000, 36⟩ (some .Mono16)
          = .ok (some r) ∧ r.size = 0 ∧ r.input = wavImage 17 1 36 4 [] []
          ∧ r.format = some .Mono16)
    ∧ ∀ (pf : Platform) (o0 o1 o2 o3 : Nat) (rest : List Nat),
        (0x2e :: 0x73 :: 0x6e :: 0x64 :: o0 :: o1 :: o2 :: o3 :: 0 :: 0 :: 0 :: 0 :: rest).length
          < 2147483648 →
        alutLoadMemoryFromFileImage pf
          (0x2e :: 0x73 :: 0x6e :: 0x64 :: o0 :: o1 :: o2 :: o3 :: 0 :: 0 :: 0 :: 0 :: rest)
          ((0x2e :: 0x73 :: 0x6e :: 0x64 :: o0 :: o1 :: o2 :: o3 :: 0 :: 0 :: 0 :: 0
            :: rest).length : Nat) = .ok none :=
  ⟨⟨rfl, rfl, rfl, rfl⟩, ⟨rfl, by decide, by decide, by decide⟩,
    zero_length_payload (wavImage 17 1 36 4 [] []) ⟨.IMA4, 44, 0, 1, 16, 8000, 36⟩
      (some .Mono16) rfl (fun _ => ⟨by decide, by decide, by decide⟩)⟩

/-- The slip left out of C13: a `fmt ` chunk with audio format 17 and block
align 0 makes line 270 divide by zero, on every platform, here with a `data`
chunk of length 0. -/
theorem ima4_block_align_zero_divides (pf : Platform) :
    alutLoadMemoryFromFileImage pf (wavImage 17 1 0 4 [] []) 44 = .error .divisionByZero := by
  rcases pf with ⟨_ | _, _ | _⟩ <;> rfl

/-! ### Truncated headers and unknown magic numbers -/

theorem lt_of_or_lt (x y : Nat) (hx : x < 4294967296) (hy : y < 4294967296)
    (h : x ||| y < 2147483648) : x < 2147483648 ∧ y < 2147483648 := by
  have hb : (x ||| y).testBit 31 = false := Nat.testBit_lt_two_pow (by simpa using h)
  rw [Nat.testBit_or, Bool.or_eq_false_iff] at hb
  simp only [Nat.testBit_to_div_mod, decide_eq_false_iff_not] at hb
  omega

theorem or_lt_32 (x y : Nat) (hx : x < 4294967296) (hy : y < 4294967296) :
    x ||| y < 4294967296 :=
  Nat.or_lt_two_pow (n := 32) hx hy

theorem shl32_lt (x k : Nat) : shl32 x k < 4294967296 := by
  unfold shl32
  omega

theorem char32_lt (pf : Platform) (b : Nat) : char32 pf b < 4294967296 := by
  unfold char32
  split <;> omega

theorem char32_cases (pf : Platform) (b : Nat) :
    char32 pf b = b % 256 ∨ (128 ≤ b % 256 ∧ char32 pf b = b % 256 + 4294967040) := by
  unfold char32
  split
  · rename_i hc
    exact Or.inr ⟨hc.2, rfl⟩
  · exact Or.inl rfl

/-- A big-endian word read through plain `char` is a given positive word with
bytes below 128 only if the four bytes read are its bytes. -/
theorem be32_eq (pf : Platform) (b0 b1 b2 b3 k0 k1 k2 k3 : Nat)
    (hk0 : k0 < 128) (hk1 : k1 < 256) (hk2 : k2 < 256) (hk3 : k3 < 256)
    (h : asInt32 (shl32 (char32 pf b0) 24 ||| shl32 (char32 pf b1) 16
            ||| shl32 (char32 pf b2) 8 ||| char32 pf b3)
          = ((k0 * 16777216 + k1 * 65536 + k2 * 256 + k3 : Nat) : Int)) :
    b0 % 256 = k0 ∧ b1 % 256 = k1 ∧ b2 % 256 = k2 ∧ b3 % 256 = k3 := by
  have hA := shl32_lt (char32 pf b0) 24
  have hB := shl32_lt (char32 pf b1) 16
  have hC := shl32_lt (char32 pf b2) 8
  have hD := char32_lt pf b3
  have hAB := or_lt_32 _ _ hA hB
  have hABC := or_lt_32 _ _ hAB hC
  have hP := or_lt_32 _ _ hABC hD
  have hlt : shl32 (char32 pf b0) 24 ||| shl32 (char32 pf b1) 16
      ||| shl32 (char32 pf b2) 8 ||| char32 pf b3 < 2147483648 := by
    unfold asInt32 at h
    split at h <;> omega
  obtain ⟨h3, hD'⟩ := lt_of_or_lt _ _ hABC hD hlt
  obtain ⟨h2, hC'⟩ := lt_of_or_lt _ _ hAB hC h3
  obtain ⟨hA', hB'⟩ := lt_of_or_lt _ _ hA hB h2
  have eD : char32 pf b3 = b3 % 256 := by
    rcases char32_cases pf b3 with e | ⟨e1, e2⟩
    · exact e
    · rw [e2] at hD'; omega
  have eC : shl32 (char32 pf b2) 8 = 2 ^ 8 * (b2 % 256) := by
    unfold shl32 at hC' ⊢
    rw [Nat.shiftLeft_eq] at hC' ⊢
    rcases char32_cases pf b2 with e | ⟨e1, e2⟩
    · rw [e]; omega
    · rw [e2] at hC'; omega
  have eB : shl32 (char32 pf b1) 16 = 2 ^ 16 * (b1 % 256) := by
    unfold shl32 at hB' ⊢
    rw [Nat.shiftLeft_eq] at hB' ⊢
    rcases char32_cases pf b1 with e | ⟨e1, e2⟩
    · rw [e]; omega
    · rw [e2] at hB'; omega
  have eA : shl32 (char32 pf b0) 24 = 2 ^ 24 * (b0 % 256) := by
    unfold shl32 at hA' ⊢
    rw [Nat.shiftLeft_eq] at hA' ⊢
    rcases char32_cases pf b0 with e | ⟨e1, e2⟩
    · rw [e] at hA' ⊢; omega
    · rw [e2] at hA'; omega
  rw [eA, eB, eC, eD] at h hlt
  have s1 : 2 ^ 24 * (b0 % 256) ||| 2 ^ 16 * (b1 % 256)
      = 2 ^ 16 * (2 ^ 8 * (b0 % 256) + b1 % 256) := by
    rw [← Nat.mul_add_lt_is_or (by omega)]
    omega
  have s2 : 2 ^ 16 * (2 ^ 8 * (b0 % 256) + b1 % 256) ||| 2 ^ 8 * (b2 % 256)
      = 2 ^ 8 * (2 ^ 8 * (2 ^ 8 * (b0 % 256) + b1 % 256) + b2 % 256) := by
    rw [← Nat.mul_add_lt_is_or (by omega)]
    omega
  have s3 : 2 ^ 8 * (2 ^ 8 * (2 ^ 8 * (b0 % 256) + b1 % 256) + b2 % 256) ||| b3 % 256
      = 2 ^ 8 * (2 ^ 8 * (2 ^ 8 * (b0 % 256) + b1 % 256) + b2 % 256) + b3 % 256 := by
    rw [← Nat.mul_add_lt_is_or (by omega)]
  rw [s1, s2, s3] at h hlt
  unfold asInt32 at h
  split at h <;> omega

theorem short_input_rejected (pf : Platform) (data : List Nat) (h : data.length < 4) :
    alutLoadMemoryFromFileImage pf data (data.length : Nat) = .ok none := by
  refine alutLoad_of_parse_none pf data _ ⟨0, data.length, []⟩ ?_
  unfold parseFileImage
  simp only [toSize_natCast _ (show data.length < 18446744073709551616 by omega)]
  rw [if_pos h]
  rfl

theorem wavChunkLoop_short (pf : Platform) (data : List Nat) (fuel : Nat) (s : Stream)
    (fmt : Option WavFmt) (h : s.remainingLength < 8) :
    wavChunkLoop pf data (fuel + 1) s fmt = .ok (s, none) := by
  unfold wavChunkLoop wavChunkStep
  rw [if_pos h]
  rfl

theorem riff_short_rejected (pf : Platform) (rest : List Nat)
    (h : (0x52 :: 0x49 :: 0x46 :: 0x46 :: rest).length < 20) :
    alutLoadMemoryFromFileImage pf (0x52 :: 0x49 :: 0x46 :: 0x46 :: rest)
      ((0x52 :: 0x49 :: 0x46 :: 0x46 :: rest).length : Nat) = .ok none := by
  have hn : (0x52 :: 0x49 :: 0x46 :: 0x46 :: rest).length < 18446744073709551616 := by omega
  have h4 : 4 ≤ (0x52 :: 0x49 :: 0x46 :: 0x46 :: rest).length := by simp
  generalize hd : (0x52 :: 0x49 :: 0x46 :: 0x46 :: rest) = data at h hn h4 ⊢
  have hriff : readBE32 pf data 0 = .ok 0x52494646 := by rw [← hd]; exact readBE32_riff pf rest
  have h0 : (⟨0, data.length, []⟩ : Stream).Inv data.length :=
    ⟨by simp, by intro e he; cases he⟩
  obtain ⟨ha, har, hap⟩ := Stream.advance_inv _ data.length 4 hn h0 h4
  simp only [] at har hap
  suffices hs : ∃ s, parseFileImage pf data (data.length : Nat) = .ok (s, none) by
    obtain ⟨s, hs⟩ := hs
    exact alutLoad_of_parse_none pf data _ s hs
  unfold parseFileImage
  simp only [toSize_natCast _ hn]
  rw [if_neg (by omega)]
  simp only [hriff, bind, Except.bind, if_true]
  unfold parseWAV
  split_ifs with h8
  · exact ⟨_, rfl⟩
  · obtain ⟨cl, hcl⟩ := readLE32_ok pf data ((Stream.advance ⟨0, data.length, []⟩ 4).pos)
      (by omega)
    obtain ⟨magic, hm⟩ := readBE32_ok pf data ((Stream.advance ⟨0, data.length, []⟩ 4).pos + 4)
      (by omega)
    obtain ⟨hb, hbr, -⟩ := Stream.advance_inv _ data.length 8 hn ha (by omega)
    simp only [hcl, hm, bind, Except.bind]
    split_ifs with hw
    · exact ⟨_, rfl⟩
    · exact ⟨_, wavChunkLoop_short pf data _ _ none (by omega)⟩

theorem snd_short_rejected (pf : Platform) (rest : List Nat)
    (h : (0x2e :: 0x73 :: 0x6e :: 0x64 :: rest).length < 24) :
    alutLoadMemoryFromFileImage pf (0x2e :: 0x73 :: 0x6e :: 0x64 :: rest)
      ((0x2e :: 0x73 :: 0x6e :: 0x64 :: rest).length : Nat) = .ok none := by
  have hn : (0x2e :: 0x73 :: 0x6e :: 0x64 :: rest).length < 18446744073709551616 := by omega
  have h4 : 4 ≤ (0x2e :: 0x73 :: 0x6e :: 0x64 :: rest).length := by simp
  generalize hd : (0x2e :: 0x73 :: 0x6e :: 0x64 :: rest) = data at h hn h4 ⊢
  have hsnd : readBE32 pf data 0 = .ok 0x2E736E64 := by rw [← hd]; exact readBE32_snd pf rest
  have h0 : (⟨0, data.length, []⟩ : Stream).Inv data.length :=
    ⟨by simp, by intro e he; cases he⟩
  obtain ⟨ha, har, hap⟩ := Stream.advance_inv _ data.length 4 hn h0 h4
  simp only [] at har hap
  refine alutLoad_of_parse_none pf data _ (Stream.advance ⟨0, data.length, []⟩ 4) ?_
  unfold parseFileImage
  simp only [toSize_natCast _ hn]
  rw [if_neg (by omega)]
  simp only [hsnd, bind, Except.bind]
  rw [if_neg (by decide), if_pos trivial]
  unfold parseAU
  rw [if_pos (by omega)]
  rfl

theorem other_magic_rejected (pf : Platform) (c0 c1 c2 c3 : Nat) (rest : List Nat)
    (hl : (c0 :: c1 :: c2 :: c3 :: rest).length < 2147483648)
    (hriff : ¬ (c0 % 256 = 0x52 ∧ c1 % 256 = 0x49 ∧ c2 % 256 = 0x46 ∧ c3 % 256 = 0x46))
    (hsnd : ¬ (c0 % 256 = 0x2e ∧ c1 % 256 = 0x73 ∧ c2 % 256 = 0x6e ∧ c3 % 256 = 0x64)) :
    alutLoadMemoryFromFileImage pf (c0 :: c1 :: c2 :: c3 :: rest)
      ((c0 :: c1 :: c2 :: c3 :: rest).length : Nat) = .ok none := by
  have hn : (c0 :: c1 :: c2 :: c3 :: rest).length < 18446744073709551616 := by omega
  have h4 : ¬ (c0 :: c1 :: c2 :: c3 :: rest).length < 4 := by simp
  have hread : readBE32 pf (c0 :: c1 :: c2 :: c3 :: rest) 0
      = .ok (asInt32 (shl32 (char32 pf (c0 % 256)) 24 ||| shl32 (char32 pf (c1 % 256)) 16
          ||| shl32 (char32 pf (c2 % 256)) 8 ||| char32 pf (c3 % 256))) := rfl
  refine alutLoad_of_parse_none pf _ _
    (Stream.advance ⟨0, (c0 :: c1 :: c2 :: c3 :: rest).length, []⟩ 4) ?_
  unfold parseFileImage
  simp only [toSize_natCast _ hn]
  rw [if_neg h4]
  simp only [hread, bind, Except.bind]
  rw [if_neg, if_neg]
  · rfl
  · intro hm
    have := be32_eq pf _ _ _ _ 0x2e 0x73 0x6e 0x64 (by decide) (by decide) (by decide)
      (by decide) (by rw [hm]; rfl)
    simp only [Nat.mod_mod] at this
    exact hsnd this
  · intro hm
    have := be32_eq pf _ _ _ _ 0x52 0x49 0x46 0x46 (by decide) (by decide) (by decide)
      (by decide) (by rw [hm]; rfl)
    simp only [Nat.mod_mod] at this
    exact hriff this

/-- C15: on every platform, for every input whose length is an `ALsizei`, the
call returns `NULL`, and so reads no byte at an index at or past the length of
the input (such a read is a fault of the model, not a result), in each of
these cases: the input is shorter than 4 bytes; it starts with `RIFF` and is
shorter than 20 bytes (shorter than 12, or ending before the first 8-byte
chunk header is complete); it starts with `.snd` and is shorter than 24 bytes;
its first four bytes are neither `RIFF` nor `.snd`. And whenever fewer than 8
bytes remain at the head of the chunk loop, the loop ends in `return NULL`
without a read. -/
theorem truncated_headers_rejected (pf : Platform) (data : List Nat)
    (hlen : data.length < 2147483648) :
    (data.length < 4 → alutLoadMemoryFromFileImage pf data (data.length : Nat) = .ok none)
    ∧ (∀ rest, data = 0x52 :: 0x49 :: 0x46 :: 0x46 :: rest → data.length < 20 →
        alutLoadMemoryFromFileImage pf data (data.length : Nat) = .ok none)
    ∧ (∀ fuel s fmt, s.remainingLength < 8 →
        wavChunkLoop pf data (fuel + 1) s fmt = .ok (s, none))
    ∧ (∀ rest, data = 0x2e :: 0x73 :: 0x6e :: 0x64 :: rest → data.length < 24 →
        alutLoadMemoryFromFileImage pf data (data.length : Nat) = .ok none)
    ∧ (∀ c0 c1 c2 c3 rest, data = c0 :: c1 :: c2 :: c3 :: rest →
        ¬ (c0 % 256 = 0x52 ∧ c1 % 256 = 0x49 ∧ c2 % 256 = 0x46 ∧ c3 % 256 = 0x46) →
        ¬ (c0 % 256 = 0x2e ∧ c1 % 256 = 0x73 ∧ c2 % 256 = 0x6e ∧ c3 % 256 = 0x64) →
        alutLoadMemoryFromFileImage pf data (data.length : Nat) = .ok none) := by
  refine ⟨short_input_rejected pf data, ?_, ?_, ?_, ?_⟩
  · intro rest hd h
    subst hd
    exact riff_short_rejected pf rest h
  · intro fuel s fmt h
    exact wavChunkLoop_short pf data fuel s fmt h
  · intro rest hd h
    subst hd
    exact snd_short_rejected pf rest h
  · intro c0 c1 c2 c3 rest hd h1 h2
    subst hd
    exact other_magic_rejected pf c0 c1 c2 c3 rest hlen h1 h2

/-- C15 at five inputs on a little-endian platform with signed `char`: the 3
bytes `RIF`; `RIFF`, a size, `WAVE` and 5 more bytes; a WAV image cut 5 bytes
after its `fmt ` chunk; `.snd` and 10 more bytes; `FORM` followed by bytes of
`0x80` and above. -/
theorem truncated_headers_rejected_witness :
    ([0x52, 0x49, 0x46].length < 2147483648 ∧ [0x52, 0x49, 0x46].length < 4
      ∧ alutLoadMemoryFromFileImage ⟨true, true⟩ [0x52, 0x49, 0x46]
          ([0x52, 0x49, 0x46].length : Nat) = .ok none)
    ∧ (riffCutInChunkHeader.length < 20
      ∧ alutLoadMemoryFromFileImage ⟨true, true⟩ riffCutInChunkHeader
          (riffCutInChunkHeader.length : Nat) = .ok none)
    ∧ alutLoadMemoryFromFileImage ⟨true, true⟩ wavCutAfterFmt 41 = .ok none
    ∧ (sndCutInHeader.length < 24
      ∧ alutLoadMemoryFromFileImage ⟨true, true⟩ sndCutInHeader
          (sndCutInHeader.length : Nat) = .ok none)
    ∧ alutLoadMemoryFromFileImage ⟨true, true⟩ formImage (formImage.length : Nat) = .ok none :=
  ⟨⟨by decide, by decide,
      (truncated_headers_rejected ⟨true, true⟩ [0x52, 0x49, 0x46] (by decide)).1 (by decide)⟩,
    ⟨by decide,
      (truncated_headers_rejected ⟨true, true⟩ riffCutInChunkHeader (by decide)).2.1
        _ rfl (by decide)⟩,
    rfl,
    ⟨by decide,
      (truncated_headers_rejected ⟨true, true⟩ sndCutInHeader (by decide)).2.2.2.1
        _ rfl (by decide)⟩,
    (truncated_headers_rejected ⟨true, true⟩ formImage (by decide)).2.2.2.2
      _ _ _ _ _ rfl (by decide) (by decide)⟩

/-! ### IMA4: the nibble step against its reference -/

/-- The branchless update of lines 307-334 equals the reference step, for a
step index inside the table and a nibble below 16. -/
theorem ima4Nibble_eq_spec (p : Int) (s n : Nat) (hs : s ≤ 88) (hn : n < 16) :
    ima4Nibble ⟨p, s⟩ n
      = .ok ⟨(ima4NibbleSpec p s n).1, ((ima4NibbleSpec p s n).2).toNat⟩
    ∧ 0 ≤ (ima4NibbleSpec p s n).2 ∧ (ima4NibbleSpec p s n).2 ≤ 88 := by
  have h8 : toInt8 (s : Int) = s := by unfold toInt8; omega
  unfold ima4Nibble ima4NibbleSpec
  simp only [h8]
  rw [if_neg (by omega)]
  simp only [Int.toNat_ofNat, pure, Except.pure]
  generalize step_table.getD s 0 = step
  interval_cases n <;> simp +decide [index_table, toInt8, toInt16] <;> omega

/-- The nibble taken from a byte on line 292 is below 16. -/
theorem nibble_lt (byte q : Nat) (hb : byte < 256) :
    (if q % 2 = 0 then byte &&& 0xf else byte >>> 4) < 16 := by
  split
  · exact Nat.and_lt_two_pow byte (n := 4) (by decide)
  · rw [Nat.shiftRight_eq_div_pow]
    omega

/-- C17: for every predictor `p`, every step index `s` in `[0, 88]` and every
nibble `n` below 16, the branchless update of the code returns, and its new
predictor and new step index are those of the reference: `step =
step_table[s]`, `delta = (step >> 3) + (step if n & 4) + (step >> 1 if n & 2)
+ (step >> 2 if n & 1)`, the predictor `p - delta` if `n & 8` else `p +
delta`, reduced to signed 16 bits, the index `s + index_table[n]` clamped to
`[0, 88]`. And in the nibble loop the sample stored for that nibble is the new
predictor. -/
theorem ima4_nibble_refines (p : Int) (s n : Nat) (hs : s ≤ 88) (hn : n < 16) :
    (ima4Nibble ⟨p, s⟩ n
        = .ok ⟨(ima4NibbleSpec p s n).1, ((ima4NibbleSpec p s n).2).toNat⟩
      ∧ 0 ≤ (ima4NibbleSpec p s n).2 ∧ (ima4NibbleSpec p s n).2 ≤ 88)
    ∧ ∀ (input : List Nat) (pos nc q d ptr_ch byte : Nat) (buf : SampleBuffer)
        (r : Nat × ChannelState × SampleBuffer),
        readByte input (pos + d) = .ok byte →
        (if q % 2 = 0 then byte &&& 0xf else byte >>> 4) = n →
        ima4Nibbles input pos nc 1 q d ptr_ch ⟨p, s⟩ buf = .ok r →
        r.2.1 = ⟨(ima4NibbleSpec p s n).1, ((ima4NibbleSpec p s n).2).toNat⟩
        ∧ r.2.2.sample ptr_ch = some (ima4NibbleSpec p s n).1 := by
  have hstep := ima4Nibble_eq_spec p s n hs hn
  refine ⟨hstep, ?_⟩
  intro input pos nc q d ptr_ch byte buf r hb hq h
  unfold ima4Nibbles at h
  simp only [hb, bind, Except.bind, hq, hstep.1] at h
  obtain ⟨buf1, hst, h⟩ := bind_eq_ok _ _ _ h
  simp only [ima4Nibbles, pure, Except.pure, Except.ok.injEq] at h
  subst h
  exact ⟨rfl, store_sample_same _ _ _ _ hst⟩

/-- C17 at predictor 100, step index 0 and nibble 12: the step is 7, the delta
`0 + 7`, the sign bit is set, the new predictor 93 and the new index 2. -/
theorem ima4_nibble_refines_witness :
    ((0 : Nat) ≤ 88 ∧ (12 : Nat) < 16)
    ∧ ima4Nibble ⟨100, 0⟩ 12 = .ok ⟨93, 2⟩
    ∧ ima4NibbleSpec 100 0 12 = (93, 2)
    ∧ ((ima4Nibble ⟨100, 0⟩ 12
          = .ok ⟨(ima4NibbleSpec 100 0 12).1, ((ima4NibbleSpec 100 0 12).2).toNat⟩
        ∧ 0 ≤ (ima4NibbleSpec 100 0 12).2 ∧ (ima4NibbleSpec 100 0 12).2 ≤ 88)
      ∧ ∀ (input : List Nat) (pos nc q d ptr_ch byte : Nat) (buf : SampleBuffer)
          (r : Nat × ChannelState × SampleBuffer),
          readByte input (pos + d) = .ok byte →
          (if q % 2 = 0 then byte &&& 0xf else byte >>> 4) = 12 →
          ima4Nibbles input pos nc 1 q d ptr_ch ⟨100, 0⟩ buf = .ok r →
          r.2.1 = ⟨(ima4NibbleSpec 100 0 12).1, ((ima4NibbleSpec 100 0 12).2).toNat⟩
          ∧ r.2.2.sample ptr_ch = some (ima4NibbleSpec 100 0 12).1) :=
  ⟨by decide, rfl, rfl, ima4_nibble_refines 100 0 12 (by decide) (by decide)⟩

/-! ### The chunk loop ends -/

/-- The parser returns on every input that starts with `RIFF`. -/
theorem parse_riff_returns (pf : Platform) (rest : List Nat)
    (hlen : (0x52 :: 0x49 :: 0x46 :: 0x46 :: rest).length < 2147483648) :
    ∃ s r, parseFileImage pf (0x52 :: 0x49 :: 0x46 :: 0x46 :: rest)
      ((0x52 :: 0x49 :: 0x46 :: 0x46 :: rest).length : Nat) = .ok (s, r) := by
  have hn : (0x52 :: 0x49 :: 0x46 :: 0x46 :: rest).length < 18446744073709551616 := by omega
  have h4 : 4 ≤ (0x52 :: 0x49 :: 0x46 :: 0x46 :: rest).length := by simp
  generalize hd : (0x52 :: 0x49 :: 0x46 :: 0x46 :: rest) = data at hlen hn h4 ⊢
  have hriff : readBE32 pf data 0 = .ok 0x52494646 := by rw [← hd]; exact readBE32_riff pf rest
  have h0 : (⟨0, data.length, []⟩ : Stream).Inv data.length :=
    ⟨by simp, by intro e he; cases he⟩
  obtain ⟨ha, -, -⟩ := Stream.advance_inv _ data.length 4 hn h0 h4
  unfold parseFileImage
  simp only [toSize_natCast _ hn]
  rw [if_neg (by omega)]
  simp only [hriff, bind, Except.bind, if_true]
  obtain ⟨s, r, h, -⟩ := parseWAV_good pf data _ hn ha
  exact ⟨s, r, h⟩

/-- C20: on every platform, for every input of `L` bytes (`L` an `ALsizei`)
that starts with `RIFF`: a pass through the body of the chunk loop, started
with the cursor inside the input, returns `NULL`, breaks at a `data` chunk, or
reaches the end of the body with `remainingLength` lowered by 8 or more; from
every state of the loop (the cursor at offset 12 or beyond) `L / 8` passes
through the body are enough for the loop to end; and the parser returns, with
a payload or with a failure. -/
theorem chunk_loop_terminates (pf : Platform) (rest : List Nat)
    (hlen : (0x52 :: 0x49 :: 0x46 :: 0x46 :: rest).length < 2147483648) :
    (∀ s fmt, s.Inv (0x52 :: 0x49 :: 0x46 :: 0x46 :: rest).length →
      ∃ r, wavChunkStep pf (0x52 :: 0x49 :: 0x46 :: 0x46 :: rest) s fmt = .ok r
        ∧ ∀ s' fmt', r = .next s' fmt' →
            s'.Inv (0x52 :: 0x49 :: 0x46 :: 0x46 :: rest).length
            ∧ s'.remainingLength + 8 ≤ s.remainingLength)
    ∧ (∀ s fmt, s.Inv (0x52 :: 0x49 :: 0x46 :: 0x46 :: rest).length → 12 ≤ s.pos →
        ∃ res, wavChunkLoop pf (0x52 :: 0x49 :: 0x46 :: 0x46 :: rest)
          ((0x52 :: 0x49 :: 0x46 :: 0x46 :: rest).length / 8) s fmt = .ok res)
    ∧ ∃ s r, parseFileImage pf (0x52 :: 0x49 :: 0x46 :: 0x46 :: rest)
        ((0x52 :: 0x49 :: 0x46 :: 0x46 :: rest).length : Nat) = .ok (s, r) := by
  have hn : (0x52 :: 0x49 :: 0x46 :: 0x46 :: rest).length < 18446744073709551616 := by omega
  refine ⟨fun s fmt hs => ?_, fun s fmt hs hp => ?_, parse_riff_returns pf rest hlen⟩
  · obtain ⟨r, hr, hg⟩ := wavChunkStep_good pf _ s fmt hn hs
    refine ⟨r, hr, fun s' fmt' he => ?_⟩
    subst he
    exact hg
  · have h1 := hs.1
    obtain ⟨s', r, h, -⟩ := wavChunkLoop_good pf _ hn
      ((0x52 :: 0x49 :: 0x46 :: 0x46 :: rest).length / 8) s fmt hs (by omega)
    exact ⟨_, h⟩

/-- C20 at the WAV image of 58 bytes with a `LIST` chunk: from the state in
which the loop is entered, 3 passes (`fmt `, `LIST`, `data`) end the loop;
`58 / 8` is 7. -/
theorem chunk_loop_terminates_witness :
    (0x52 :: 0x49 :: 0x46 :: 0x46 :: wavListTail).length < 2147483648
    ∧ wavChunkLoop ⟨true, true⟩ (0x52 :: 0x49 :: 0x46 :: 0x46 :: wavListTail) 3
        ⟨12, 46, [(54, 8), (58, 4)]⟩ none
      = .ok (⟨56, 2, [(10, 8), (11, 1), (14, 3), (22, 8), (38, 16), (46, 8), (54, 8), (58, 4)]⟩,
          some ⟨.Linear, 56, 2, 1, 8, 8000, 1⟩)
    ∧ ((∀ s fmt, s.Inv (0x52 :: 0x49 :: 0x46 :: 0x46 :: wavListTail).length →
        ∃ r, wavChunkStep ⟨true, true⟩ (0x52 :: 0x49 :: 0x46 :: 0x46 :: wavListTail) s fmt = .ok r
          ∧ ∀ s' fmt', r = .next s' fmt' →
              s'.Inv (0x52 :: 0x49 :: 0x46 :: 0x46 :: wavListTail).length
              ∧ s'.remainingLength + 8 ≤ s.remainingLength)
      ∧ (∀ s fmt, s.Inv (0x52 :: 0x49 :: 0x46 :: 0x46 :: wavListTail).length → 12 ≤ s.pos →
          ∃ res, wavChunkLoop ⟨true, true⟩ (0x52 :: 0x49 :: 0x46 :: 0x46 :: wavListTail)
            ((0x52 :: 0x49 :: 0x46 :: 0x46 :: wavListTail).length / 8) s fmt = .ok res)
      ∧ ∃ s r, parseFileImage ⟨true, true⟩ (0x52 :: 0x49 :: 0x46 :: 0x46 :: wavListTail)
          ((0x52 :: 0x49 :: 0x46 :: 0x46 :: wavListTail).length : Nat) = .ok (s, r)) :=
  ⟨by decide, rfl, chunk_loop_terminates ⟨true, true⟩ wavListTail (by decide)⟩

end MinAlut
